import Mathlib

set_option maxRecDepth 100000

/-!
# A formal model of the Multimodal RAG ingestion and retrieval pipeline

This file gives a shallow embedding, in Lean, of the core components of the
Multimodal_RAG repository (ingestion: enricher, chunker, vector manager,
orchestrator; query time: candidate dedup, output validator, streaming
response finalization) and proves the testable properties stated in its
specification against that embedding.

Modelling conventions:
* Python strings are Lean `String`s; most scanning work happens on `List Char`.
* Python `None` is `Option.none`; a function that can fall off the end of a
  Python body without a `return` is given an `Option` result type.
* Python dictionaries are association lists in key-insertion order, with
  `dictUpdate` implementing insert-or-overwrite (overwriting keeps the key's
  original position, as CPython dicts do).
* `isinstance` tests against the element classes of the `unstructured`
  library are modelled as tests on an element `kind` tag classifying the
  element's most specific class; the library's subclass relations are
  reflected in the tests (`Title`, `Table` and `Image` all subclass `Text`
  in `unstructured`, so `isinstance(element, (Text, Title))` holds for the
  `text`, `title`, `image` and `table` kinds, while `other` stands for the
  non-`Text` element classes).
* External services (LLM calls, the vector database) are modelled as explicit
  parameters: an LLM call that may raise is a function into `Option String`
  (`none` = raised exception), and the vector store is the list of flattened
  payload records it holds.
* Bounded recursion over character lists uses an explicit fuel argument equal
  to the list length (every step consumes at least one character), keeping
  every definition kernel-computable.
-/

namespace MMRag

/-! ## Python string primitives -/

/-- The ASCII whitespace characters removed by Python's `str.strip()` and
matched by the regex class `\s`. -/
def pyIsSpace (c : Char) : Bool :=
  c == ' ' || c == '\t' || c == '\n' || c == '\r' || c == '\x0b' || c == '\x0c'

/-- `str.strip()` on a character list. -/
def pyStripList (l : List Char) : List Char :=
  ((l.dropWhile pyIsSpace).reverse.dropWhile pyIsSpace).reverse

/-- Python `str.strip()`. -/
def pyStrip (s : String) : String :=
  (pyStripList s.data).asString

/-- Code-point lexicographic order on strings, as used by Python `sorted`. -/
def charListLt : List Char → List Char → Bool
  | [], [] => false
  | [], _ :: _ => true
  | _ :: _, [] => false
  | a :: as, b :: bs =>
    if a.toNat < b.toNat then true
    else if b.toNat < a.toNat then false
    else charListLt as bs

/-- Insert into a sorted list (model of one step of Python `sorted`). -/
def insertSorted (x : String) : List String → List String
  | [] => [x]
  | y :: ys => if charListLt x.data y.data then x :: y :: ys else y :: insertSorted x ys

/-- Python `sorted` on a list of strings (insertion sort). -/
def pySorted (l : List String) : List String :=
  l.foldl (fun acc x => insertSorted x acc) []

/-- Python `set(...)` iteration modelled as first-occurrence deduplication
(the order is irrelevant to the program, which only sorts the set or tests
membership). -/
def pySet (l : List String) : List String :=
  l.foldl (fun acc x => if x ∈ acc then acc else acc ++ [x]) []

/-- One CPython dict assignment `d[k] = v`: overwrite in place if the key is
present (keeping its original position), otherwise append. -/
def dictUpdate {α : Type} (d : List (String × α)) (k : String) (v : α) :
    List (String × α) :=
  if d.any (fun p => p.1 == k) then
    d.map (fun p => if p.1 == k then (k, v) else p)
  else d ++ [(k, v)]

/-- CPython dict built from a sequence of key/value pairs (comprehension
semantics: later values overwrite, first occurrence fixes the position). -/
def pyDict {α : Type} (l : List (String × α)) : List (String × α) :=
  l.foldl (fun d p => dictUpdate d p.1 p.2) []

/-- `dict.get k` on an association list. -/
def dictGet {α : Type} (d : List (String × α)) (k : String) : Option α :=
  (d.find? (fun p => p.1 == k)).map (fun p => p.2)

/-- `dict.get k default` on an association list. -/
def dictGetD {α : Type} (d : List (String × α)) (k : String) (dflt : α) : α :=
  (dictGet d k).getD dflt

/-! ## The langchain `Document` model -/

/-- Model of a langchain `Document`: page content plus a metadata
dictionary (string-valued; the fields the core reads are strings). -/
structure Doc where
  page_content : String
  metadata : List (String × String)
deriving DecidableEq

/-! ## `src/core/tools.py`: OutputValidator -/

namespace OutputValidator

/-- Match the regex `\[IMAGE:([^\]]+)\]` at the head of `l`.  On success,
returns the captured group (the maximal nonempty run of non-`]` characters
after the literal `[IMAGE:`) together with the total length of the match. -/
def imageTagMatch (l : List Char) : Option (List Char × Nat) :=
  if l.take 7 = "[IMAGE:".data then
    if ((l.drop 7).takeWhile (fun c => c != ']')).isEmpty then none
    else if ((l.drop 7).drop ((l.drop 7).takeWhile (fun c => c != ']')).length).headD ' ' = ']' then
      some ((l.drop 7).takeWhile (fun c => c != ']'),
        7 + ((l.drop 7).takeWhile (fun c => c != ']')).length + 1)
    else none
  else none

/-- `re.sub` for the pattern `\[IMAGE:([^\]]+)\]` with a replacement
function, scanning left to right and resuming after each match.  `fuel`
bounds the recursion; it is instantiated with the list length (each step
consumes at least one character). -/
def imageSubGo (repl : List Char → List Char) : Nat → List Char → List Char
  | 0, l => l
  | _ + 1, [] => []
  | fuel + 1, c :: rest =>
    match imageTagMatch (c :: rest) with
    | some (_, 0) => c :: rest
    | some (g, n + 1) => repl g ++ imageSubGo repl fuel (rest.drop n)
    | none => c :: imageSubGo repl fuel rest

/-- `IMAGE_TAG_RE.sub(repl, s)` on a character list. -/
def imageSub (repl : List Char → List Char) (l : List Char) : List Char :=
  imageSubGo repl l.length l

/-- `OutputValidator._get_allowed_paths`: the sorted set of stripped,
truthy `image_path` metadata values of the source documents. -/
def get_allowed_paths (docs : List Doc) : List String :=
  let paths := docs.filterMap (fun d =>
    match dictGet d.metadata "image_path" with
    | some s => if s != "" then some (pyStrip s) else none
    | none => none)
  pySorted (pySet paths)

/-- The replacement function `repl` of `OutputValidator.normalize`: keep a
tag whose stripped path is allowed (re-emitting it with the stripped path),
delete it otherwise. -/
def normalizeRepl (allowed : List String) (g : List Char) : List Char :=
  if (pyStripList g).asString ∈ allowed then "[IMAGE:".data ++ pyStripList g ++ [']']
  else []

/-- `OutputValidator.normalize(answer, source_docs)`. -/
def normalize (answer : String) (source_docs : List Doc) : String :=
  if (get_allowed_paths source_docs).isEmpty then
    (imageSub (fun _ => []) answer.data).asString
  else
    (imageSub (normalizeRepl (get_allowed_paths source_docs)) answer.data).asString

/-- Every `[IMAGE:...]` match in the scan of `l` is already in the
canonical form `normalize` re-emits: its path is stripped and allowed.
This is the condition under which a further `normalize` pass is the
identity (an analysis device, following the scan structure of
`imageSubGo`). -/
def tagsAllValid (allowed : List String) : Nat → List Char → Bool
  | 0, _ => true
  | _ + 1, [] => true
  | fuel + 1, c :: rest =>
    match imageTagMatch (c :: rest) with
    | some (_, 0) => true
    | some (g, n + 1) =>
      (!allowed.isEmpty && (pyStripList g == g) && allowed.contains g.asString) &&
        tagsAllValid allowed fuel (rest.drop n)
    | none => tagsAllValid allowed fuel rest

end OutputValidator

/-! ## `src/core/tools.py`: QueryAnalyzer, and the candidate-dedup step of
`RetrievalAgent.run` (`src/core/agent.py`) -/

/-- Python `needle in hay` substring test. -/
def containsSub (needle hay : List Char) : Bool :=
  match hay with
  | [] => needle.isEmpty
  | _ :: rest => needle.isPrefixOf hay || containsSub needle rest

/-- `QueryAnalyzer.analyze`: keyword-based content-type detection. -/
def analyze (query : String) : Option String :=
  let q_lower := query.data.map Char.toLower
  if containsSub "image".data q_lower || containsSub "figure".data q_lower ||
      containsSub "photo".data q_lower || containsSub "graph".data q_lower ||
      containsSub "chart".data q_lower then some "image"
  else if containsSub "table".data q_lower || containsSub "grid".data q_lower ||
      containsSub "data".data q_lower then some "table"
  else none

/-- The dedup line of `RetrievalAgent.run`:
`list({doc.page_content: doc for doc in candidate_docs}.values())`. -/
def dedupByContent (candidate_docs : List Doc) : List Doc :=
  (pyDict (candidate_docs.map (fun d => (d.page_content, d)))).map (fun p => p.2)

/-- Candidate assembly and dedup of `RetrievalAgent.run` (steps 2-3, up to
the reranker call): the unfiltered search result is always used, the
filtered result is appended only when a truthy content preference exists,
and the concatenation is deduplicated by page content. -/
def agentUniqueDocs (general filtered : List Doc) (content_preference : Option String) :
    List Doc :=
  let candidate_docs := general ++
    (match content_preference with
     | some s => if s != "" then filtered else []
     | none => [])
  dedupByContent candidate_docs

/-! ## `src/core/agent.py`: StreamingRAGResponse.get_response -/

namespace StreamingResponse

/-- A regex word character (`\w`, ASCII range as used by these patterns). -/
def isWordChar (c : Char) : Bool :=
  c.isAlphanum || c == '_'

/-- Case-insensitive literal prefix test (`pat` is given in lowercase). -/
def ciPre (pat : List Char) (l : List Char) : Bool :=
  (l.take pat.length).map Char.toLower == pat

/-- Lazy search `.*?pat`: the smallest offset at which the (case-insensitive)
literal `pat` starts, with the skipped characters matched by `.` (which does
not match a newline).  `none` when a newline or the end intervenes. -/
def findStop (pat : List Char) : List Char → Option Nat
  | [] => none
  | c :: rest =>
    if ciPre pat (c :: rest) then some 0
    else if c == '\n' then none
    else (findStop pat rest).map (fun q => q + 1)

/-- Head character is a decimal digit. -/
def headDigit : List Char → Bool
  | c :: _ => c.isDigit
  | [] => false

/-- Existence of `p\.\s*\d+` somewhere in a character list. -/
def hasPNum : List Char → Bool
  | [] => false
  | c :: rest =>
    (match c, rest with
     | c', '.' :: r2 => Char.toLower c' == 'p' && headDigit (r2.dropWhile pyIsSpace)
     | _, _ => false) || hasPNum rest

/-- Existence of `page\s*\d+` somewhere in a character list. -/
def hasPageNum : List Char → Bool
  | [] => false
  | c :: rest =>
    (ciPre "page".data (c :: rest) &&
      headDigit (((c :: rest).drop 4).dropWhile pyIsSpace)) || hasPageNum rest

/-- Existence of `\.(pdf|docx?|pptx?)` somewhere in a character list (the
optional trailing letter is absorbed by the following `[^)]*`). -/
def hasFileExt : List Char → Bool
  | [] => false
  | c :: rest =>
    (match c, rest with
     | '.', r => ciPre "pdf".data r || ciPre "doc".data r || ciPre "ppt".data r
     | _, _ => false) || hasFileExt rest

/-- Alternative `\[.*?source.*?\]`. -/
def altBracketSource (l : List Char) : Option Nat :=
  match l with
  | '[' :: r => do
    let q ← findStop "source".data r
    let e ← findStop "]".data (r.drop (q + 6))
    pure (1 + q + 6 + e + 1)
  | _ => none

/-- Alternative `\(.*?source.*?\)`. -/
def altParenSource (l : List Char) : Option Nat :=
  match l with
  | '(' :: r => do
    let q ← findStop "source".data r
    let e ← findStop ")".data (r.drop (q + 6))
    pure (1 + q + 6 + e + 1)
  | _ => none

/-- Alternative `\[\d+\]`. -/
def altNumeric (l : List Char) : Option Nat :=
  match l with
  | '[' :: r =>
    let ds := r.takeWhile Char.isDigit
    if ds.isEmpty then none
    else
      match r.drop ds.length with
      | ']' :: _ => some (1 + ds.length + 1)
      | _ => none
  | _ => none

/-- Alternative `\(see.*?\)`. -/
def altSee (l : List Char) : Option Nat :=
  match l with
  | '(' :: r =>
    if ciPre "see".data r then
      (findStop ")".data (r.drop 3)).map (fun e => 1 + 3 + e + 1)
    else none
  | _ => none

/-- Alternative `\(sources\)`. -/
def altParenSources (l : List Char) : Option Nat :=
  match l with
  | '(' :: r => if ciPre "sources)".data r then some 9 else none
  | _ => none

/-- Shared shape of the three `\([^)]*X[^)]*\)` alternatives: the whole
match runs to the first `)` after the `(`, and succeeds exactly when the
region in between satisfies `cond`. -/
def altParenWith (cond : List Char → Bool) (l : List Char) : Option Nat :=
  match l with
  | '(' :: r =>
    match r.findIdx? (fun c => c == ')') with
    | some k => if cond (r.take k) then some (1 + k + 1) else none
    | none => none
  | _ => none

/-- Alternative `\bSources?:[^\n]*` (the word boundary is supplied by the
caller as `prevIsWord`). -/
def altSourcesLine (prevIsWord : Bool) (l : List Char) : Option Nat :=
  if prevIsWord then none
  else if ciPre "source".data l then
    let r := l.drop 6
    let base? : Option Nat :=
      match r with
      | c1 :: ':' :: _ => if Char.toLower c1 == 's' then some 8
                          else if c1 == ':' then some 7 else none
      | c1 :: _ => if c1 == ':' then some 7 else none
      | [] => none
    base?.map (fun base => base + ((l.drop base).takeWhile (fun c => c != '\n')).length)
  else none

/-- The ordered alternation inside `citation_pattern`
(`src/core/agent.py`, lines 51-64). -/
def citAlts (prevIsWord : Bool) (l : List Char) : Option Nat :=
  altBracketSource l <|> altParenSource l <|> altNumeric l <|> altSee l <|>
  altParenSources l <|> altParenWith hasPNum l <|> altParenWith hasPageNum l <|>
  altParenWith hasFileExt l <|> altSourcesLine prevIsWord l

/-- Attempt to match `citation_pattern` (`\s*(alt1|...|alt9)`) at the head
of `l`; `prev` is the character before the match position (for the `\b` of
the last alternative).  Returns the total match length. -/
def citMatch (prev : Option Char) (l : List Char) : Option Nat :=
  let w := (l.takeWhile pyIsSpace).length
  let prevIsWord :=
    if w == 0 then (match prev with | some c => isWordChar c | none => false)
    else false
  (citAlts prevIsWord (l.drop w)).map (fun m => w + m)

/-- `citation_pattern.sub('', ·)`: left-to-right scan deleting every match,
resuming after each match; `fuel` is instantiated with the list length. -/
def citSubGo : Nat → Option Char → List Char → List Char
  | 0, _, l => l
  | _ + 1, _, [] => []
  | fuel + 1, prev, c :: rest =>
    match citMatch prev (c :: rest) with
    | some 0 => c :: citSubGo fuel (some c) rest
    | some (n + 1) => citSubGo fuel (((c :: rest).take (n + 1)).getLast?) (rest.drop n)
    | none => c :: citSubGo fuel (some c) rest

/-- `citation_pattern.sub('', s)` on a character list. -/
def citSub (l : List Char) : List Char :=
  citSubGo l.length none l

/-- Match of `\n\s*Sources\b` at the head of `l` (the split pattern of
`get_response`). -/
def sourcesMatchAt (l : List Char) : Bool :=
  match l with
  | '\n' :: rest =>
    let j := rest.drop ((rest.takeWhile pyIsSpace).length)
    ciPre "sources".data j &&
      (match j.drop 7 with | c :: _ => !isWordChar c | [] => true)
  | _ => false

/-- `re.split(r'(\n\s*Sources\b)', full, maxsplit=1, IGNORECASE)`, reduced
to what `get_response` uses: the text before the first match and the whole
tail from the match on (`parts[1] + parts[2]`).  `none` when there is no
match. -/
def findSources : List Char → Option (List Char × List Char)
  | [] => none
  | c :: rest =>
    if sourcesMatchAt (c :: rest) then some ([], c :: rest)
    else (findSources rest).map (fun p => (c :: p.1, p.2))

/-- The post-processing pass of `get_response` applied to the fully joined
stream: split off the Sources section, strip citations from the answer part
only, and reassemble. -/
def cleanFullResponse (full : String) : String :=
  match findSources full.data with
  | some (answer_part, sources_part) =>
    if sources_part.isEmpty then pyStrip ((citSub answer_part).asString)
    else pyStrip ((citSub answer_part).asString) ++ "\n\n" ++ pyStrip sources_part.asString
  | none => pyStrip ((citSub full.data).asString)

/-- `StreamingRAGResponse`: the token stream, the source documents, and the
memoized final response (`None` until first full consumption). -/
structure StreamingRAGResponse where
  response_gen : List String
  source_nodes : List Doc
  final_response : Option String := none
deriving DecidableEq

/-- The observable outcome of one `get_response` call: the returned
dictionary (`response`, `source_nodes`), the updated object state, and
whether this call consumed the token stream / ran the citation-stripping
pass. -/
structure GetResponseTrace where
  response : String
  source_nodes : List Doc
  state : StreamingRAGResponse
  consumedStream : Bool
  ranCleaning : Bool
deriving DecidableEq

/-- `StreamingRAGResponse.get_response`. -/
def get_response (r : StreamingRAGResponse) : GetResponseTrace :=
  match r.final_response with
  | some s => ⟨s, r.source_nodes, r, false, false⟩
  | none =>
    let full_response := String.join r.response_gen
    let result := cleanFullResponse full_response
    ⟨result, r.source_nodes, { r with final_response := some result }, true, true⟩

end StreamingResponse

/-! ## Content elements (`unstructured` documents consumed by the ingestion
pipeline) -/

/-- The element classes the ingestion pipeline distinguishes, as a tag for
the element's most specific class.  In the `unstructured` library `Title`,
`Table` and `Image` are subclasses of `Text`, so the source's
`isinstance(element, (Text, Title))` holds for the `text`, `title`,
`image` and `table` kinds; `other` models the element classes that do not
derive from `Text` (e.g. `CheckBox`). -/
inductive ElementKind
  | text
  | title
  | image
  | table
  | other
deriving DecidableEq

/-- The metadata attributes read off an element
(`getattr(element.metadata, ..., None)`). -/
structure ElementMetadata where
  page_number : Option Nat := none
  image_path : Option String := none
  text_as_html : Option String := none
deriving DecidableEq

/-- One extracted content element. -/
structure Element where
  id : String
  kind : ElementKind
  text : String
  metadata : ElementMetadata
deriving DecidableEq

/-! ## `src/ingestion/prompt.py` -/

/-- `get_image_caption_prompt()`. -/
def get_image_caption_prompt : String :=
  "\n    You are an AI assistant that generates concise and informative summaries of images based on their descriptions. Your task is to create a brief summary that captures the essence of the image in a way that is easy to understand.You are an expert in computer vision and image interpretation. Your task is to generate a precise and informative summary of the visual content in the provided image. The image may represent real-world scenes, model architecture diagrams, data visualizations (e.g., bar charts, line plots, confusion matrices), or other forms of structured or unstructured visual data.\n    Your summary should:\n    1. Identify key visual elements and their relationships.\n    2. Describe the overall context or purpose of the image (e.g., experimental setup, model workflow, or data trend).\n    3. Highlight any notable patterns, anomalies, or insights that may be relevant for analysis or model evaluation.\n\n    Maintain technical clarity and avoid unnecessary speculation or artistic interpretation.\n     Do not begin your response with phrases like “Here is a summary” or any equivalent.\n    Simply output the summary itself.\n    "

/-- `get_table_summary_prompt(table_html)`. -/
def get_table_summary_prompt (table_html : String) : String :=
  "\n    You are an expert in data analysis and tabular interpretation. Your task is to generate a concise and informative summary of the data presented in the provided table. The table may contain experimental results, performance metrics, benchmark comparisons, statistical data, or any structured dataset.\n    Your summary should:\n    1. Identify the key variables, metrics, and dimensions represented.\n    2. Describe the overall trends, patterns, or relationships within the data.\n    3. Highlight any significant observations, outliers, or notable comparisons.\n    4. Capture the context or purpose implied by the data (e.g., model evaluation, dataset statistics, or experimental outcomes).\n    Respond only with the summary — no additional comments, explanations, or preambles.\n    Do not begin your response with phrases like “Here is a summary” or any equivalent.\n    Simply output the summary itself.\n\n    Here is the table to summarize:\n\n" ++ table_html ++ "\n    "

/-! ## `src/ingestion/enricher.py`: ContentEnricher -/

/-- The LLM service consumed by the enricher.  A call returning `none`
models a raised exception (caught by the per-element handlers). -/
structure LLMService where
  generate_text : String → Option String
  generate_image_caption : String → String → Option String

namespace ContentEnricher

/-- `ContentEnricher._enrich_table`: element id, produced content, and
whether an LLM API call was made. -/
def enrich_table (svc : LLMService) (element : Element) : String × String × Bool :=
  if (element.metadata.text_as_html).getD "" = "" then (element.id, "N/A", false)
  else
    match svc.generate_text
        (get_table_summary_prompt ((element.metadata.text_as_html).getD "")) with
    | some summary => (element.id, summary, true)
    | none => (element.id, "Failed to generate summary.", true)

/-- `ContentEnricher._enrich_image`. -/
def enrich_image (svc : LLMService) (element : Element) : String × String × Bool :=
  if (element.metadata.image_path).getD "" = "" then (element.id, "N/A", false)
  else
    match svc.generate_image_caption ((element.metadata.image_path).getD "")
        get_image_caption_prompt with
    | some caption => (element.id, caption, true)
    | none => (element.id, "Failed to generate caption.", true)

/-- The task list of `enrich_elements`: one enrichment per table or image
element, in document order (gather preserves order). -/
def enrichTasks (svc : LLMService) (elements : List Element) :
    List (String × String × Bool) :=
  elements.filterMap (fun element =>
    match element.kind with
    | .table => some (enrich_table svc element)
    | .image => some (enrich_image svc element)
    | _ => none)

/-- `ContentEnricher.enrich_elements`: the dictionary
`{element_id: content for element_id, content in results}`. -/
def enrich_elements (svc : LLMService) (elements : List Element) :
    List (String × String) :=
  pyDict ((enrichTasks svc elements).map (fun t => (t.1, t.2.1)))

/-- An element the enricher schedules a task for (a table or an image). -/
def isEnrichable (e : Element) : Bool :=
  e.kind == .table || e.kind == .image

/-- The enrichment of one schedulable element (analysis view of the task
dispatch in `enrich_elements`). -/
def enrichOne (svc : LLMService) (e : Element) : String × String × Bool :=
  match e.kind with
  | .table => enrich_table svc e
  | .image => enrich_image svc e
  | _ => (e.id, "N/A", false)

/-- The element has enrichable content (non-empty table HTML / image path),
so it does not short-circuit to `"N/A"`. -/
def hasContent (e : Element) : Bool :=
  match e.kind with
  | .table => (e.metadata.text_as_html).getD "" != ""
  | .image => (e.metadata.image_path).getD "" != ""
  | _ => false

/-- The element's enrichment call is actually made and raises. -/
def callFails (svc : LLMService) (e : Element) : Bool :=
  match e.kind with
  | .table => ((e.metadata.text_as_html).getD "" != "") &&
      (svc.generate_text (get_table_summary_prompt ((e.metadata.text_as_html).getD ""))).isNone
  | .image => ((e.metadata.image_path).getD "" != "") &&
      (svc.generate_image_caption ((e.metadata.image_path).getD "") get_image_caption_prompt).isNone
  | _ => false

/-- One of the two per-element failure placeholder strings. -/
def isPlaceholder (v : String) : Bool :=
  v == "Failed to generate summary." || v == "Failed to generate caption."

end ContentEnricher

/-! ## `src/ingestion/chunker.py`: DocumentChunker -/

/-- Decimal digit character. -/
def decDigit : Nat → Char
  | 0 => '0' | 1 => '1' | 2 => '2' | 3 => '3' | 4 => '4'
  | 5 => '5' | 6 => '6' | 7 => '7' | 8 => '8' | _ => '9'

/-- Little-endian decimal digits of `n`; `fuel` is instantiated with
`n + 1`, which always suffices. -/
def natDigitsRev : Nat → Nat → List Char
  | 0, _ => []
  | fuel + 1, n =>
    if n < 10 then [decDigit n]
    else decDigit (n % 10) :: natDigitsRev fuel (n / 10)

/-- Decimal rendering of a natural number (Python `f"{n}"`). -/
def natStr (n : Nat) : String :=
  ((natDigitsRev (n + 1) n).reverse).asString

/-- Index of the last occurrence of `c` in `l`. -/
def lastIdxOf (c : Char) (l : List Char) : Option Nat :=
  (l.reverse.findIdx? (fun x => x == c)).map (fun k => l.length - 1 - k)

/-- `os.path.basename`: the part after the last `/`. -/
def pyBasename (p : String) : String :=
  ((p.data.reverse.takeWhile (fun c => c != '/')).reverse).asString

/-- Decimal digit character test (for recovering the trailing index from a
chunk id). -/
def isDigitChar (c : Char) : Bool :=
  48 ≤ c.toNat && c.toNat ≤ 57

/-- Value of a little-endian decimal digit-character list. -/
def digitsVal : List Char → Nat
  | [] => 0
  | c :: cs => (c.toNat - 48) + 10 * digitsVal cs

/-- The number formed by the trailing digit run of a string — for a chunk
id, the positional index it was built from. -/
def trailingNum (s : String) : Nat :=
  digitsVal (s.data.reverse.takeWhile isDigitChar)

/-- `os.path.splitext(name)[0]` for a path without directory separators:
cut at the last dot, unless every character before it is a dot. -/
def splitextRoot (name : String) : String :=
  let cs := name.data
  match lastIdxOf '.' cs with
  | none => name
  | some d =>
    if (cs.take d).any (fun c => c != '.') then (cs.take d).asString else name

/-- `str.capitalize()`. -/
def pyCapitalize (s : String) : String :=
  match s.data with
  | [] => s
  | c :: rest => (Char.toUpper c :: rest.map Char.toLower).asString

/-- Python `a or b` on optional integers (`None` and `0` are falsy). -/
def pyOrOpt (a b : Option Nat) : Option Nat :=
  match a with
  | some p => if p = 0 then b else some p
  | none => b

/-- `chunk["document_metadata"]`. -/
structure DocumentMeta where
  file_path : String
  file_name : String
deriving DecidableEq

/-- `chunk["structural_metadata"]`. -/
structure StructuralMeta where
  page_number : Option Nat
  section_heading : String
  element_type : String
deriving DecidableEq

/-- `chunk["multimodal_metadata"]` (the type-specific fields are `none`
when the corresponding dictionary key is absent). -/
structure MultimodalMeta where
  figure_id : String
  summary : String
  modality : String
  image_path : Option (Option String) := none
  table_html : Option (Option String) := none
deriving DecidableEq

/-- One chunk record produced by the chunker. -/
structure Chunk where
  chunk_id : String
  document_metadata : DocumentMeta
  structural_metadata : StructuralMeta
  multimodal_metadata : MultimodalMeta
  raw_content : String
deriving DecidableEq

/-- The `DocumentChunker` tool: the document path fixed at construction and
the injected text splitter (`RecursiveCharacterTextSplitter.split_text`
modelled as an opaque function). -/
structure DocumentChunker where
  doc_path : String
  text_splitter : String → List String

namespace DocumentChunker

/-- `self.doc_name`. -/
def doc_name (dk : DocumentChunker) : String := pyBasename dk.doc_path

/-- `self.doc_id`. -/
def doc_id (dk : DocumentChunker) : String := splitextRoot dk.doc_name

/-- The chunk id format of `_create_metadata`. -/
def mkChunkId (docId : String) (page : Option Nat) (index : Nat) : String :=
  match page with
  | some p => docId ++ "_p" ++ natStr p ++ "_c" ++ natStr index
  | none => docId ++ "_c" ++ natStr index

/-- `DocumentChunker._create_metadata`. -/
def create_metadata (dk : DocumentChunker) (element : Element) (index : Nat)
    (el_type : String) (sect : String) (summary : String := "") : Chunk :=
  let page := element.metadata.page_number
  { chunk_id := mkChunkId dk.doc_id page index
    document_metadata := { file_path := dk.doc_path, file_name := dk.doc_name }
    structural_metadata :=
      { page_number := page, section_heading := sect, element_type := el_type }
    multimodal_metadata :=
      { figure_id :=
          match page with
          | some p =>
            if p = 0 then pyCapitalize el_type ++ "_" ++ natStr index
            else pyCapitalize el_type ++ "_" ++ natStr p ++ "_" ++ natStr index
          | none => pyCapitalize el_type ++ "_" ++ natStr index
        summary := summary
        modality := el_type }
    raw_content := summary }

/-- One entry of the chunker's text buffer. -/
structure BufItem where
  text : String
  page : Option Nat
deriving DecidableEq

/-- The running state of `create_chunks`. -/
structure ChunkState where
  chunks : List Chunk
  text_buffer : List BufItem
  current_section : String
  chunk_index : Nat
  current_page : Option Nat

/-- The `page_groups` dictionary: buffered texts grouped by resolved page
number, pages in first-encounter order. -/
def pageGroups (buf : List BufItem) : List (Option Nat × List String) :=
  buf.foldl (fun groups item =>
    if groups.any (fun g => g.1 == item.page) then
      groups.map (fun g => if g.1 == item.page then (g.1, g.2 ++ [item.text]) else g)
    else groups ++ [(item.page, [item.text])]) []

/-- The buffer flush of `create_chunks` (lines 55-74): split each page
group's joined text and emit one text chunk per split segment, consuming
the buffer.  `element` is the element being processed when the flush
happens (its page number enters the chunk id). -/
def flushBuffer (dk : DocumentChunker) (st : ChunkState) (element : Element) :
    ChunkState :=
  if st.text_buffer.isEmpty then st
  else
    let acc := (pageGroups st.text_buffer).foldl (fun acc g =>
      let full_text := String.intercalate "\n\n" g.2
      (dk.text_splitter full_text).foldl (fun acc2 text_chunk =>
        let meta := create_metadata dk element acc2.2 "text" st.current_section
        let meta := { meta with
          structural_metadata := { meta.structural_metadata with page_number := g.1 }
          raw_content := text_chunk }
        (acc2.1 ++ [meta], acc2.2 + 1)) acc) (st.chunks, st.chunk_index)
    { st with chunks := acc.1, chunk_index := acc.2, text_buffer := [] }

/-- Lines 43-44 of `create_chunks`: a Title element updates the running
section heading. -/
def updateSection (st : ChunkState) (element : Element) : ChunkState :=
  if element.kind = .title then { st with current_section := element.text } else st

/-- The source's `isinstance(element, (Text, Title))`: true for `Text`,
`Title` and the `Text` subclasses `Table` and `Image`. -/
def isTextInstance (element : Element) : Bool :=
  element.kind == .text || element.kind == .title ||
  element.kind == .image || element.kind == .table

/-- Lines 46-52: an element satisfying `isinstance(element, (Text, Title))`
— which includes Table and Image elements, since those subclass `Text` —
is appended to the text buffer with its resolved page
(`element_page or current_page`), which also becomes the current page. -/
def bufferText (st : ChunkState) (element : Element) : ChunkState :=
  if isTextInstance element then
    { st with
      text_buffer := st.text_buffer ++
        [⟨element.text, pyOrOpt element.metadata.page_number st.current_page⟩]
      current_page := pyOrOpt element.metadata.page_number st.current_page }
  else st

/-- Lines 54-74: the buffer is flushed on an element that is not a `Text`
instance, or on the last element.  Table and Image elements are `Text`
instances, so they do not trigger a flush: buffered text persists past
them (and past Titles) until a non-`Text` element or the document end. -/
def maybeFlush (dk : DocumentChunker) (st : ChunkState) (element : Element)
    (is_last : Bool) : ChunkState :=
  if !isTextInstance element || is_last then
    flushBuffer dk st element
  else st

/-- Lines 76-88: a chunk is emitted for an Image or Table element, carrying
the pre-enriched summary and the type-specific metadata field. -/
def emitMultimodal (dk : DocumentChunker) (enriched_data : List (String × String))
    (st : ChunkState) (element : Element) : ChunkState :=
  match element.kind with
  | .image =>
    { st with
      chunks := st.chunks ++
        [{ create_metadata dk element st.chunk_index "image" st.current_section
            (dictGetD enriched_data element.id "N/A") with
          multimodal_metadata :=
            { (create_metadata dk element st.chunk_index "image" st.current_section
                (dictGetD enriched_data element.id "N/A")).multimodal_metadata with
              image_path := some element.metadata.image_path } }]
      chunk_index := st.chunk_index + 1 }
  | .table =>
    { st with
      chunks := st.chunks ++
        [{ create_metadata dk element st.chunk_index "table" st.current_section
            (dictGetD enriched_data element.id "N/A") with
          multimodal_metadata :=
            { (create_metadata dk element st.chunk_index "table" st.current_section
                (dictGetD enriched_data element.id "N/A")).multimodal_metadata with
              table_html := some element.metadata.text_as_html } }]
      chunk_index := st.chunk_index + 1 }
  | _ => st

/-- The body of the `for i, element in enumerate(elements)` loop of
`create_chunks` for one element: section update, buffering, flush,
multimodal emission, in the source's statement order. -/
def processElement (dk : DocumentChunker) (enriched_data : List (String × String))
    (st : ChunkState) (element : Element) (is_last : Bool) : ChunkState :=
  emitMultimodal dk enriched_data
    (maybeFlush dk (bufferText (updateSection st element) element) element is_last) element

/-- The element loop of `create_chunks`: the final element is processed
with `is_last = true`. -/
def runElements (dk : DocumentChunker) (enriched_data : List (String × String)) :
    ChunkState → List Element → ChunkState
  | st, [] => st
  | st, [element] => processElement dk enriched_data st element true
  | st, element :: e2 :: rest =>
    runElements dk enriched_data (processElement dk enriched_data st element false) (e2 :: rest)

/-- The initial state of `create_chunks`: empty buffer, section heading
`"Introduction"`, chunk index `0`, no current page. -/
def initState : ChunkState :=
  { chunks := [], text_buffer := [], current_section := "Introduction"
    chunk_index := 0, current_page := none }

/-- `DocumentChunker.create_chunks`. -/
def create_chunks (dk : DocumentChunker) (elements : List Element)
    (enriched_data : List (String × String)) : List Chunk :=
  (runElements dk enriched_data initState elements).chunks

/-- Processing of a strict leading segment of the element list: every
element is processed with `is_last = false` (there are more elements to
come). -/
def runLeading (dk : DocumentChunker) (enriched_data : List (String × String))
    (st : ChunkState) (l : List Element) : ChunkState :=
  l.foldl (fun st e => processElement dk enriched_data st e false) st

/-- The chunk-id uniqueness invariant of the chunker state: the trailing
indices of the emitted chunk ids are pairwise distinct and below the
running chunk index. -/
def AccInv (acc : List Chunk × Nat) : Prop :=
  (acc.1.map (fun c => trailingNum c.chunk_id)).Nodup ∧
  ∀ c ∈ acc.1, trailingNum c.chunk_id < acc.2

/-- `AccInv` read off a chunker state. -/
def ChunkInv (st : ChunkState) : Prop :=
  AccInv (st.chunks, st.chunk_index)

/-- The pre-first-Title invariant: the running section heading is still the
initial `"Introduction"`, and so is every emitted chunk's heading. -/
def SecInv (st : ChunkState) : Prop :=
  st.current_section = "Introduction" ∧
  ∀ c ∈ st.chunks, c.structural_metadata.section_heading = "Introduction"

end DocumentChunker

/-! ## `src/ingestion/vector_manager.py`: VectorStoreManager -/

/-- One vector-store point's payload as written by `add_chunks`: the
embedded text plus the flattened metadata (`{**document_metadata,
**structural_metadata, **multimodal_metadata, "chunk_id": ...}`).  The
randomly generated point ids are not modelled (nothing reads them). -/
structure FlatRecord where
  page_content : String
  file_path : String
  file_name : String
  page_number : Option Nat
  section_heading : String
  element_type : String
  figure_id : String
  summary : String
  modality : String
  image_path : Option (Option String)
  table_html : Option (Option String)
  chunk_id : String
deriving DecidableEq

/-- The vector store, reduced to the list of stored payloads. -/
abbrev VectorStore := List FlatRecord

namespace VectorStoreManager

/-- The flattening of one chunk performed by `add_chunks`. -/
def flatten (chunk : Chunk) : FlatRecord :=
  { page_content := chunk.raw_content
    file_path := chunk.document_metadata.file_path
    file_name := chunk.document_metadata.file_name
    page_number := chunk.structural_metadata.page_number
    section_heading := chunk.structural_metadata.section_heading
    element_type := chunk.structural_metadata.element_type
    figure_id := chunk.multimodal_metadata.figure_id
    summary := chunk.multimodal_metadata.summary
    modality := chunk.multimodal_metadata.modality
    image_path := chunk.multimodal_metadata.image_path
    table_html := chunk.multimodal_metadata.table_html
    chunk_id := chunk.chunk_id }

/-- `VectorStoreManager.add_chunks`: no-op on an empty list, otherwise
write all flattened chunks to the store. -/
def add_chunks (store : VectorStore) (document_chunks : List Chunk) :
    VectorStore :=
  if document_chunks.isEmpty then store
  else store ++ document_chunks.map flatten

/-- `VectorStoreManager.is_document_processed(file_path)`: scroll for any
point whose `file_name` payload field equals the given path (a reliable
backend is assumed: the call does not fail). -/
def is_document_processed (store : VectorStore) (file_path : String) : Bool :=
  store.any (fun r => r.file_name == file_path)

end VectorStoreManager

/-! ## `src/ingestion/orchestrator.py`: AgenticIngestionOrchestrator -/

/-- `AgenticIngestionOrchestrator.run`, with the extraction backend's
result supplied as a parameter (`raw_elements`).  The returned
`Option Bool` is the Python return value: `some false` for the three early
`return False` paths, and `none` for the success path, which falls off the
end of the function body and therefore returns Python `None`.  The second
component is the vector store after the run. -/
def orchestratorRun (store : VectorStore) (file_path : String)
    (raw_elements : List Element) (splitter : String → List String)
    (svc : LLMService) : Option Bool × VectorStore :=
  if VectorStoreManager.is_document_processed store file_path then
    (some false, store)
  else if raw_elements.isEmpty then
    (some false, store)
  else
    let enriched_data := ContentEnricher.enrich_elements svc raw_elements
    let chunker : DocumentChunker := { doc_path := file_path, text_splitter := splitter }
    let document_chunks := DocumentChunker.create_chunks chunker raw_elements enriched_data
    if document_chunks.isEmpty then (some false, store)
    else (none, VectorStoreManager.add_chunks store document_chunks)

/-! ## Shared concrete test fixtures -/

/-- A plain text element on page 1. -/
def sampleTextElement : Element :=
  { id := "e1", kind := .text, text := "hello world"
    metadata := { page_number := some 1 } }

/-- A splitter that returns its input unsplit (one chunk per page group). -/
def idSplitter : String → List String := fun s => [s]

/-- An LLM service whose calls always succeed. -/
def okService : LLMService :=
  { generate_text := fun _ => some "a table summary"
    generate_image_caption := fun _ _ => some "a caption" }

/-- Two table elements with distinct ids and distinct HTML payloads. -/
def twoTables : List Element :=
  [ { id := "e1", kind := .table, text := ""
      metadata := { text_as_html := some "<table>a</table>" } },
    { id := "e2", kind := .table, text := ""
      metadata := { text_as_html := some "<table>b</table>" } } ]

/-- An LLM service that fails exactly on the summary prompt built from the
first table's HTML and succeeds elsewhere. -/
def oneFailService : LLMService :=
  { generate_text := fun prompt =>
      if prompt = get_table_summary_prompt "<table>a</table>" then none
      else some "summary ok"
    generate_image_caption := fun _ _ => some "caption ok" }

/-- An image element on page 1 with a recorded path. -/
def imageElem : Element :=
  { id := "img1", kind := .image, text := ""
    metadata := { page_number := some 1, image_path := some "i.png" } }

/-- A Title element on page 2 beginning a new section. -/
def titleElem : Element :=
  { id := "t1", kind := .title, text := "Next Section"
    metadata := { page_number := some 2 } }

/-- An element of a non-`Text` class (e.g. a check box); the only kind of
element that triggers a buffer flush before the end of the document. -/
def otherElem : Element :=
  { id := "cb1", kind := .other, text := "", metadata := { page_number := some 1 } }

/-- A chunker for a concrete document with the identity splitter. -/
def dk0 : DocumentChunker :=
  { doc_path := "doc.pdf", text_splitter := fun s => [s] }

/-! ## Dictionary lemmas (CPython dict semantics) -/

theorem mem_foldl_pySet (x : String) : ∀ (l acc : List String),
    (x ∈ l.foldl (fun acc y => if y ∈ acc then acc else acc ++ [y]) acc) ↔
      x ∈ acc ∨ x ∈ l := by
  intro l
  induction l with
  | nil => simp
  | cons y ys ih =>
    intro acc
    simp only [List.foldl_cons]
    rw [ih]
    by_cases hy : y ∈ acc
    · simp only [hy, if_true, List.mem_cons]
      constructor
      · rintro (h | h)
        · exact Or.inl h
        · exact Or.inr (Or.inr h)
      · rintro (h | h | h)
        · exact Or.inl h
        · exact Or.inl (h ▸ hy)
        · exact Or.inr h
    · simp only [hy, if_false, List.mem_append, List.mem_singleton, List.mem_cons]
      tauto

theorem pySet_mem (x : String) (l : List String) : x ∈ pySet l ↔ x ∈ l := by
  simpa [pySet] using mem_foldl_pySet x l []

theorem dictUpdate_map_fst {α : Type} (d : List (String × α)) (k : String) (v : α) :
    (dictUpdate d k v).map Prod.fst =
      if k ∈ d.map Prod.fst then d.map Prod.fst else d.map Prod.fst ++ [k] := by
  unfold dictUpdate
  by_cases h : d.any (fun q => q.1 == k)
  · have hmem : k ∈ d.map Prod.fst := by
      simp only [List.any_eq_true, beq_iff_eq] at h
      obtain ⟨q, hq, he⟩ := h
      exact he ▸ List.mem_map_of_mem Prod.fst hq
    simp only [h, if_true, hmem]
    rw [List.map_map]
    apply List.map_congr_left
    intro q hq
    by_cases hq1 : q.1 == k
    · simp only [Function.comp, hq1, if_true]
      exact (beq_iff_eq.mp hq1).symm
    · simp [Function.comp, hq1]
  · have hmem : k ∉ d.map Prod.fst := by
      simp only [List.any_eq_true, beq_iff_eq] at h
      intro hc
      obtain ⟨q, hq, he⟩ := List.mem_map.mp hc
      exact h ⟨q, hq, he⟩
    simp [h, hmem]

theorem pyDict_foldl_map_fst {α : Type} : ∀ (l d : List (String × α)),
    ((l.foldl (fun d p => dictUpdate d p.1 p.2) d).map Prod.fst) =
      (l.map Prod.fst).foldl (fun acc k => if k ∈ acc then acc else acc ++ [k])
        (d.map Prod.fst) := by
  intro l
  induction l with
  | nil => intro d; rfl
  | cons p ps ih =>
    intro d
    simp only [List.foldl_cons, List.map_cons]
    rw [ih, dictUpdate_map_fst]

/-- The keys of a CPython dict are the distinct keys of the input pairs in
first-occurrence order. -/
theorem pyDict_map_fst {α : Type} (l : List (String × α)) :
    (pyDict l).map Prod.fst = pySet (l.map Prod.fst) := by
  simpa [pyDict, pySet] using pyDict_foldl_map_fst l []

theorem pyDict_concat {α : Type} (l : List (String × α)) (q : String × α) :
    pyDict (l ++ [q]) = dictUpdate (pyDict l) q.1 q.2 := by
  simp [pyDict, List.foldl_append]

/-- Every entry of a CPython dict is one of the input pairs. -/
theorem pyDict_mem_sub {α : Type} (l : List (String × α)) :
    ∀ p ∈ pyDict l, p ∈ l := by
  induction l using List.reverseRecOn with
  | nil => intro p hp; simp [pyDict] at hp
  | append_singleton l q ih =>
    intro p hp
    rw [pyDict_concat] at hp
    unfold dictUpdate at hp
    by_cases h : (pyDict l).any (fun r => r.1 == q.1) = true
    · rw [if_pos h] at hp
      obtain ⟨r, hr, he⟩ := List.mem_map.mp hp
      by_cases hr1 : (r.1 == q.1) = true
      · rw [if_pos hr1] at he
        refine List.mem_append_right l ?_
        rw [List.mem_singleton, ← he]
      · rw [if_neg hr1] at he
        exact List.mem_append_left _ (ih p (he ▸ hr))
    · rw [if_neg h] at hp
      rcases List.mem_append.mp hp with hp | hp
      · exact List.mem_append_left _ (ih p hp)
      · refine List.mem_append_right l ?_
        rw [List.mem_singleton] at hp ⊢
        rw [hp]

/-- The value stored under a key is the value of the key's last occurrence
among the input pairs. -/
theorem pyDict_entry_last {α : Type} (l : List (String × α)) :
    ∀ p ∈ pyDict l, (l.filter (fun r => r.1 == p.1)).getLast? = some p := by
  induction l using List.reverseRecOn with
  | nil => intro p hp; simp [pyDict] at hp
  | append_singleton l q ih =>
    intro p hp
    rw [pyDict_concat] at hp
    unfold dictUpdate at hp
    rw [List.filter_append]
    by_cases h : (pyDict l).any (fun r => r.1 == q.1) = true
    · rw [if_pos h] at hp
      obtain ⟨r, hr, he⟩ := List.mem_map.mp hp
      by_cases hr1 : (r.1 == q.1) = true
      · rw [if_pos hr1] at he
        have hp1 : p.1 = q.1 := by rw [← he]
        have hq : List.filter (fun r => r.1 == p.1) [q] = [q] := by
          simp [hp1]
        rw [hq, ← he]
        exact List.getLast?_concat _
      · rw [if_neg hr1] at he
        have hne : (q.1 == p.1) = false := by
          rw [beq_eq_false_iff_ne]
          intro hc
          apply hr1
          rw [beq_iff_eq, he]
          exact hc.symm
        have hq : List.filter (fun r => r.1 == p.1) [q] = [] := by
          simp [hne]
        rw [hq, List.append_nil]
        exact ih p (he ▸ hr)
    · rw [if_neg h] at hp
      rcases List.mem_append.mp hp with hp | hp
      · have hne : (q.1 == p.1) = false := by
          rw [beq_eq_false_iff_ne]
          intro hc
          apply h
          rw [List.any_eq_true]
          refine ⟨p, hp, ?_⟩
          rw [beq_iff_eq]
          exact hc.symm
        have hq : List.filter (fun r => r.1 == p.1) [q] = [] := by
          simp [hne]
        rw [hq, List.append_nil]
        exact ih p hp
      · rw [List.mem_singleton] at hp
        subst hp
        have hfl : List.filter (fun r => r.1 == (q.1, q.2).1) l = [] := by
          rw [List.filter_eq_nil_iff]
          intro r hr hc
          apply h
          rw [List.any_eq_true]
          have hr1 : r.1 = q.1 := by simpa using hc
          have hkeys : q.1 ∈ (pyDict l).map Prod.fst := by
            rw [pyDict_map_fst, pySet_mem]
            exact hr1 ▸ List.mem_map_of_mem Prod.fst hr
          obtain ⟨r2, hr2, he2⟩ := List.mem_map.mp hkeys
          refine ⟨r2, hr2, ?_⟩
          rw [beq_iff_eq]
          exact he2
        rw [hfl]
        simp

/-! ## Claims -/

/-- Claim C3, counterexample.  The claim (and spec) state that among
candidates with identical text content the *first* occurrence wins.  In the
code the dedup is `list({doc.page_content: doc for doc in
candidate_docs}.values())`, and a dict comprehension lets a later value
overwrite an earlier one under the same key: with an unfiltered-branch
candidate and a filtered-branch candidate sharing the same text but
different metadata, the surviving document is the *second* (filtered,
later) one, not the first. -/
theorem claim_C3_counterexample :
    agentUniqueDocs [⟨"t", [("branch", "unfiltered")]⟩] [⟨"t", [("branch", "filtered")]⟩]
        (some "image") = [⟨"t", [("branch", "filtered")]⟩] ∧
    (⟨"t", [("branch", "filtered")]⟩ : Doc) ≠ ⟨"t", [("branch", "unfiltered")]⟩ := by
  decide

/-- Claim C3, amended.  Candidates from the unfiltered and the (optional)
content-type-filtered searches are deduplicated by exact text content
before reranking, regardless of which branch produced each duplicate: the
surviving entries are in first-occurrence order, one per distinct text
content — but each survivor is the *last* occurrence's document (placed at
the first occurrence's position), not the first occurrence's. -/
theorem claim_C3_dedup_last_occurrence_wins (general filtered : List Doc) :
    agentUniqueDocs general filtered (some "image") = dedupByContent (general ++ filtered) ∧
    (dedupByContent (general ++ filtered)).map (fun d => d.page_content) =
      pySet ((general ++ filtered).map (fun d => d.page_content)) ∧
    ∀ d ∈ dedupByContent (general ++ filtered),
      ((general ++ filtered).filter
        (fun x => x.page_content == d.page_content)).getLast? = some d := by
  refine ⟨rfl, ?_, ?_⟩
  · show (List.map _ (List.map _ (pyDict _)))  = _
    rw [List.map_map]
    have hcongr : ((pyDict ((general ++ filtered).map (fun d => (d.page_content, d)))).map
        ((fun d => d.page_content) ∘ (fun p => p.2))) =
        ((pyDict ((general ++ filtered).map (fun d => (d.page_content, d)))).map Prod.fst) := by
      apply List.map_congr_left
      intro p hp
      have hsub := pyDict_mem_sub _ p hp
      obtain ⟨x, _, he⟩ := List.mem_map.mp hsub
      rw [← he]
      rfl
    rw [hcongr, pyDict_map_fst, List.map_map]
    congr 1
  · intro d hd
    obtain ⟨p, hp, he⟩ := List.mem_map.mp hd
    have hfst : p.1 = p.2.page_content := by
      have hsub := pyDict_mem_sub _ p hp
      obtain ⟨x, _, hx⟩ := List.mem_map.mp hsub
      rw [← hx]
    have hlast := pyDict_entry_last _ p hp
    rw [List.filter_map] at hlast
    rw [List.getLast?_map] at hlast
    have hpred : ((fun (r : String × Doc) => r.1 == p.1) ∘
        (fun (y : Doc) => (y.page_content, y))) =
        (fun (x : Doc) => x.page_content == d.page_content) := by
      funext x
      show (x.page_content == p.1) = (x.page_content == d.page_content)
      rw [hfst, he]
    rw [hpred] at hlast
    match hm : ((general ++ filtered).filter
        (fun x => x.page_content == d.page_content)).getLast? with
    | none => rw [hm] at hlast; exact absurd hlast (by simp)
    | some y =>
      rw [hm] at hlast
      have hyp : (y.page_content, y) = p := Option.some.inj hlast
      have hy : y = p.2 := by rw [← hyp]
      rw [hm, hy, he]

/-- Witness for the amended claim C3: on a concrete pair of candidate
lists, the survivor of the duplicated content is the last occurrence. -/
theorem claim_C3_dedup_last_occurrence_wins_witness :
    ([(⟨"t", [("b", "1")]⟩ : Doc), ⟨"t", [("b", "2")]⟩].filter
        (fun x => x.page_content == "t")).getLast? = some (⟨"t", [("b", "2")]⟩ : Doc) := by
  have h := (claim_C3_dedup_last_occurrence_wins [⟨"t", [("b", "1")]⟩] [⟨"t", [("b", "2")]⟩]).2.2
  have hm := h ⟨"t", [("b", "2")]⟩ (by decide)
  exact hm

/-! ## Lemmas about the image-tag scanner -/

theorem takeWhile_all_append {α : Type} (p : α → Bool) :
    ∀ (l1 : List α) (c : α) (l2 : List α), (∀ a ∈ l1, p a = true) → p c = false →
      (l1 ++ c :: l2).takeWhile p = l1 := by
  intro l1
  induction l1 with
  | nil =>
    intro c l2 _ hc
    simp [List.takeWhile_cons, hc]
  | cons a as ih =>
    intro c l2 hall hc
    have ha : p a = true := hall a (by simp)
    simp only [List.cons_append, List.takeWhile_cons, ha, if_true]
    rw [ih c l2 (fun x hx => hall x (by simp [hx])) hc]

theorem take_takeWhile_len {α : Type} (p : α → Bool) :
    ∀ l : List α, l.take (l.takeWhile p).length = l.takeWhile p := by
  intro l
  induction l with
  | nil => rfl
  | cons a as ih =>
    by_cases h : p a = true
    · simp [List.takeWhile_cons, h, ih]
    · simp [List.takeWhile_cons, h]

theorem imageTagMatch_exact (g : List Char) (suffix : List Char)
    (hne : g ≠ []) (hnb : ∀ c ∈ g, c ≠ ']') :
    OutputValidator.imageTagMatch ("[IMAGE:".data ++ g ++ ']' :: suffix) =
      some (g, 7 + g.length + 1) := by
  unfold OutputValidator.imageTagMatch
  have h7 : ("[IMAGE:".data ++ g ++ ']' :: suffix).take 7 = "[IMAGE:".data := by
    rw [List.append_assoc]
    exact List.take_left "[IMAGE:".data _
  have hdrop : ("[IMAGE:".data ++ g ++ ']' :: suffix).drop 7 = g ++ ']' :: suffix := by
    rw [List.append_assoc]
    exact List.drop_left "[IMAGE:".data _
  have htw : (g ++ ']' :: suffix).takeWhile (fun c => c != ']') = g := by
    apply takeWhile_all_append
    · intro a ha
      simpa using hnb a ha
    · simp
  have hgne : g.isEmpty = false := by
    cases g with
    | nil => exact absurd rfl hne
    | cons a as => rfl
  rw [if_pos h7, hdrop, htw, hgne]
  rw [if_neg (by simp)]
  rw [List.drop_left g (']' :: suffix)]
  rw [if_pos (show ((']' :: suffix).headD ' ') = ']' from rfl)]

theorem imageTagMatch_inv (l : List Char) (g : List Char) (n : Nat)
    (h : OutputValidator.imageTagMatch l = some (g, n)) :
    n = 7 + g.length + 1 ∧ l = "[IMAGE:".data ++ g ++ ']' :: l.drop n ∧
      g ≠ [] ∧ ∀ c ∈ g, c ≠ ']' := by
  unfold OutputValidator.imageTagMatch at h
  by_cases h7 : l.take 7 = "[IMAGE:".data
  · rw [if_pos h7] at h
    by_cases hemp : ((l.drop 7).takeWhile (fun c => c != ']')).isEmpty = true
    · rw [if_pos hemp] at h
      exact Option.noConfusion h
    · rw [if_neg hemp] at h
      by_cases hhead :
          ((l.drop 7).drop ((l.drop 7).takeWhile (fun c => c != ']')).length).headD ' ' = ']'
      · rw [if_pos hhead] at h
        simp only [Option.some.injEq, Prod.mk.injEq] at h
        obtain ⟨hg, hn⟩ := h
        have hn2 : n = 7 + g.length + 1 := by
          rw [← hn, hg]
        obtain ⟨t, hd⟩ : ∃ t,
            (l.drop 7).drop ((l.drop 7).takeWhile (fun c => c != ']')).length = ']' :: t := by
          match hd0 : (l.drop 7).drop ((l.drop 7).takeWhile (fun c => c != ']')).length with
          | [] =>
            rw [hd0] at hhead
            simp at hhead
          | c :: t =>
            rw [hd0] at hhead
            simp only [List.headD_cons] at hhead
            exact ⟨t, by rw [hhead]⟩
        have hrest : l.drop 7 = g ++ ']' :: t := by
          have h1 := (List.take_append_drop
            ((l.drop 7).takeWhile (fun c => c != ']')).length (l.drop 7)).symm
          rw [take_takeWhile_len, hd, hg] at h1
          exact h1
        have hl : l = "[IMAGE:".data ++ g ++ ']' :: t := by
          have h1 := (List.take_append_drop 7 l).symm
          rw [h7, hrest] at h1
          rw [h1, List.append_assoc]
        have hdropn : l.drop n = t := by
          rw [hl, hn2]
          have e1 : ("[IMAGE:".data ++ (g ++ ']' :: t)).drop (7 + g.length + 1) =
              (g ++ ']' :: t).drop (g.length + 1) := by
            have h72 : 7 + g.length + 1 = ("[IMAGE:".data).length + (g.length + 1) := by
              have hlen : ("[IMAGE:".data).length = 7 := rfl
              rw [hlen]
              omega
            rw [h72, List.drop_append]
          have e2 : (g ++ ']' :: t).drop (g.length + 1) = t := by
            simpa using List.drop_append g (']' :: t) 1
          rw [List.append_assoc, e1, e2]
        refine ⟨hn2, ?_, ?_, ?_⟩
        · rw [hdropn]
          exact hl
        · intro hgnil
          rw [hg, hgnil] at hemp
          simp at hemp
        · intro x hx
          have hx2 : x ∈ (l.drop 7).takeWhile (fun c => c != ']') := by
            rw [hg]; exact hx
          have := List.mem_takeWhile_imp hx2
          simpa using this
      · rw [if_neg hhead] at h
        exact Option.noConfusion h
  · rw [if_neg h7] at h
    exact Option.noConfusion h

theorem imageSubGo_nil (repl : List Char → List Char) (fuel : Nat) :
    OutputValidator.imageSubGo repl fuel [] = [] := by
  cases fuel <;> rfl

theorem imageSubGo_cons_match (repl : List Char → List Char) (fuel : Nat) (c : Char)
    (rest g : List Char) (n : Nat)
    (h : OutputValidator.imageTagMatch (c :: rest) = some (g, n + 1)) :
    OutputValidator.imageSubGo repl (fuel + 1) (c :: rest) =
      repl g ++ OutputValidator.imageSubGo repl fuel (rest.drop n) := by
  simp [OutputValidator.imageSubGo, h]

theorem imageSubGo_cons_none (repl : List Char → List Char) (fuel : Nat) (c : Char)
    (rest : List Char) (h : OutputValidator.imageTagMatch (c :: rest) = none) :
    OutputValidator.imageSubGo repl (fuel + 1) (c :: rest) =
      c :: OutputValidator.imageSubGo repl fuel rest := by
  simp [OutputValidator.imageSubGo, h]

theorem imageSub_single (repl : List Char → List Char) (g : List Char)
    (hne : g ≠ []) (hnb : ∀ c ∈ g, c ≠ ']') :
    OutputValidator.imageSub repl ("[IMAGE:".data ++ g ++ [']']) = repl g := by
  have hm : OutputValidator.imageTagMatch ("[IMAGE:".data ++ g ++ [']']) =
      some (g, (7 + g.length) + 1) :=
    imageTagMatch_exact g [] hne hnb
  have hform : "[IMAGE:".data ++ g ++ [']'] = '[' :: ("IMAGE:".data ++ g ++ [']']) := rfl
  show OutputValidator.imageSubGo repl ("[IMAGE:".data ++ g ++ [']']).length
      ("[IMAGE:".data ++ g ++ [']']) = repl g
  rw [hform] at hm ⊢
  rw [List.length_cons]
  rw [imageSubGo_cons_match repl _ '[' _ g (7 + g.length) hm]
  have hrlen : ("IMAGE:".data ++ g ++ [']']).length = 7 + g.length := by
    simp
    omega
  have hdrop : ("IMAGE:".data ++ g ++ [']']).drop (7 + g.length) = [] := by
    rw [← hrlen, List.drop_length]
  rw [hdrop, imageSubGo_nil, List.append_nil]

theorem imageSubGo_eq_self (allowed : List String) (repl : List Char → List Char)
    (hrepl : ∀ g : List Char,
      (!allowed.isEmpty && (pyStripList g == g) && allowed.contains g.asString) = true →
      repl g = "[IMAGE:".data ++ g ++ [']']) :
    ∀ (fuel : Nat) (l : List Char), l.length ≤ fuel →
      OutputValidator.tagsAllValid allowed fuel l = true →
      OutputValidator.imageSubGo repl fuel l = l := by
  intro fuel
  induction fuel with
  | zero => intro l _ _; rfl
  | succ fuel ih =>
    intro l hlen hval
    match l with
    | [] => rfl
    | c :: rest =>
      have hlenr : rest.length ≤ fuel := by
        rw [List.length_cons] at hlen
        omega
      match hm : OutputValidator.imageTagMatch (c :: rest) with
      | none =>
        have h2 : OutputValidator.tagsAllValid allowed (fuel + 1) (c :: rest) =
            OutputValidator.tagsAllValid allowed fuel rest := by
          simp [OutputValidator.tagsAllValid, hm]
        rw [imageSubGo_cons_none repl fuel c rest hm]
        rw [ih rest hlenr (by rw [← h2]; exact hval)]
      | some (g, n) =>
        match n, hm with
        | 0, hm =>
          have := (imageTagMatch_inv _ _ _ hm).1
          omega
        | n + 1, hm =>
          obtain ⟨hn, hl, hgne, hgnb⟩ := imageTagMatch_inv _ _ _ hm
          have h2 : OutputValidator.tagsAllValid allowed (fuel + 1) (c :: rest) =
              ((!allowed.isEmpty && (pyStripList g == g) && allowed.contains g.asString) &&
                OutputValidator.tagsAllValid allowed fuel (rest.drop n)) := by
            simp [OutputValidator.tagsAllValid, hm]
          rw [h2, Bool.and_eq_true] at hval
          obtain ⟨hvalid, hrest⟩ := hval
          rw [imageSubGo_cons_match repl fuel c rest g n hm, hrepl g hvalid]
          have hlen2 : (rest.drop n).length ≤ fuel := by
            rw [List.length_drop]
            omega
          rw [ih (rest.drop n) hlen2 hrest]
          have hdrop : (c :: rest).drop (n + 1) = rest.drop n := rfl
          rw [hdrop] at hl
          rw [hl]
          simp [List.append_assoc]

/-- The condition under which one more `normalize` pass is the identity:
every marker in the string is canonical and allowed. -/
theorem normalize_fixpoint (answer : String) (docs : List Doc)
    (h : OutputValidator.tagsAllValid (OutputValidator.get_allowed_paths docs)
      answer.data.length answer.data = true) :
    OutputValidator.normalize answer docs = answer := by
  unfold OutputValidator.normalize
  by_cases hall : (OutputValidator.get_allowed_paths docs).isEmpty = true
  · rw [if_pos hall]
    show (OutputValidator.imageSubGo (fun _ => []) answer.data.length answer.data).asString = answer
    rw [imageSubGo_eq_self (OutputValidator.get_allowed_paths docs) (fun _ => [])
      (fun g hg => by
        rw [hall] at hg
        simp at hg)
      answer.data.length answer.data (Nat.le_refl _) h]
    rfl
  · rw [if_neg hall]
    show (OutputValidator.imageSubGo
      (OutputValidator.normalizeRepl (OutputValidator.get_allowed_paths docs))
      answer.data.length answer.data).asString = answer
    rw [imageSubGo_eq_self (OutputValidator.get_allowed_paths docs) _
      (fun g hg => by
        rw [Bool.and_eq_true, Bool.and_eq_true] at hg
        obtain ⟨⟨hne2, hstripb⟩, hcont⟩ := hg
        have hstrip : pyStripList g = g := beq_iff_eq.mp hstripb
        have hmem : g.asString ∈ OutputValidator.get_allowed_paths docs :=
          List.mem_of_elem_eq_true hcont
        unfold OutputValidator.normalizeRepl
        rw [hstrip]
        rw [if_pos hmem])
      answer.data.length answer.data (Nat.le_refl _) h]
    rfl

/-- Claim C4, counterexample.  The claim says a marker is kept *verbatim*
iff its path is in the source set, and otherwise the whole marker is
deleted.  For the marker `[IMAGE: a.png]` (path carrying a leading space)
with source image paths `{"a.png"}`, the code does neither: it re-emits the
marker with the *stripped* path, producing `[IMAGE:a.png]` — not the
original marker text, and not a deletion. -/
theorem claim_C4_counterexample :
    OutputValidator.normalize "[IMAGE: a.png]" [⟨"", [("image_path", "a.png")]⟩] =
      "[IMAGE:a.png]" ∧
    ("[IMAGE:a.png]" : String) ≠ "[IMAGE: a.png]" ∧
    ("[IMAGE:a.png]" : String) ≠ "" := by
  decide

/-- Claim C4, amended.  `normalize` keeps a marker `[IMAGE:<path>]` iff the
*whitespace-stripped* path is in the set of image paths of the source
documents (and that set is nonempty), re-emitting the marker with the
stripped path — verbatim exactly when the path carries no surrounding
whitespace; otherwise the entire marker token is deleted; if the set is
empty every marker is stripped.  In particular, with source image paths
`{"a.png"}`, an answer containing `[IMAGE:a.png]` and `[IMAGE:b.png]`
validates to only `[IMAGE:a.png]` retained. -/
theorem claim_C4_marker_validation (p : String) (docs : List Doc)
    (hne : p.data ≠ []) (hnb : ∀ c ∈ p.data, c ≠ ']') :
    (OutputValidator.normalize ("[IMAGE:" ++ p ++ "]") docs =
      if OutputValidator.get_allowed_paths docs ≠ [] ∧
          pyStrip p ∈ OutputValidator.get_allowed_paths docs
      then "[IMAGE:" ++ pyStrip p ++ "]" else "") ∧
    OutputValidator.normalize "[IMAGE:a.png] and [IMAGE:b.png]"
      [⟨"", [("image_path", "a.png")]⟩] = "[IMAGE:a.png] and " := by
  refine ⟨?_, by decide⟩
  have hdata : ("[IMAGE:" ++ p ++ "]").data = "[IMAGE:".data ++ p.data ++ [']'] := rfl
  unfold OutputValidator.normalize
  rw [hdata]
  by_cases hall : (OutputValidator.get_allowed_paths docs).isEmpty = true
  · rw [if_pos hall]
    rw [imageSub_single (fun _ => []) p.data hne hnb]
    have hallnil : OutputValidator.get_allowed_paths docs = [] := by
      cases hl : OutputValidator.get_allowed_paths docs with
      | nil => rfl
      | cons a as => rw [hl] at hall; exact absurd hall (by simp)
    rw [if_neg (by simp [hallnil])]
    rfl
  · rw [if_neg hall]
    rw [imageSub_single _ p.data hne hnb]
    unfold OutputValidator.normalizeRepl
    by_cases hmem : (pyStripList p.data).asString ∈ OutputValidator.get_allowed_paths docs
    · rw [if_pos hmem]
      rw [if_pos ⟨by
          intro hc
          rw [hc] at hall
          exact hall rfl, hmem⟩]
      rfl
    · rw [if_neg hmem]
      rw [if_neg (by
        intro hc
        exact hmem hc.2)]
      rfl

/-- Witness for the amended claim C4: a canonical allowed marker is kept
verbatim on a concrete input. -/
theorem claim_C4_marker_validation_witness :
    OutputValidator.normalize "[IMAGE:a.png]" [⟨"", [("image_path", "a.png")]⟩] =
      "[IMAGE:a.png]" := by
  have h := (claim_C4_marker_validation "a.png" [⟨"", [("image_path", "a.png")]⟩]
    (by decide) (by decide)).1
  have h2 : (if OutputValidator.get_allowed_paths [⟨"", [("image_path", "a.png")]⟩] ≠ [] ∧
      pyStrip "a.png" ∈ OutputValidator.get_allowed_paths [⟨"", [("image_path", "a.png")]⟩]
      then "[IMAGE:" ++ pyStrip "a.png" ++ "]" else "") = "[IMAGE:a.png]" := by
    rw [if_pos ⟨by decide, by decide⟩]
    decide
  exact h.trans h2

/-- Claim C9, counterexample.  `normalize` is not idempotent: deleting an
invalid marker can splice the surrounding text into a new marker.  With no
source images, `"[IMA[IMAGE:a]GE:b]"` normalizes to `"[IMAGE:b]"`, and a
second pass strips that freshly formed marker to `""`. -/
theorem claim_C9_counterexample :
    OutputValidator.normalize (OutputValidator.normalize "[IMA[IMAGE:a]GE:b]" []) [] ≠
      OutputValidator.normalize "[IMA[IMAGE:a]GE:b]" [] := by
  decide

/-- Claim C9, amended.  `normalize` is idempotent on every answer whose
first pass yields an output in which every `[IMAGE:...]` marker is
canonical (path already stripped) and allowed — in particular whenever
deleting invalid markers does not splice surrounding text into a new
marker.  In general it is not idempotent (see the counterexample). -/
theorem claim_C9_normalize_idempotent_on_canonical (answer : String) (docs : List Doc)
    (h : OutputValidator.tagsAllValid (OutputValidator.get_allowed_paths docs)
      (OutputValidator.normalize answer docs).data.length
      (OutputValidator.normalize answer docs).data = true) :
    OutputValidator.normalize (OutputValidator.normalize answer docs) docs =
      OutputValidator.normalize answer docs :=
  normalize_fixpoint (OutputValidator.normalize answer docs) docs h

/-- Witness for the amended claim C9 on a concrete valid-output answer. -/
theorem claim_C9_normalize_idempotent_witness :
    OutputValidator.normalize
        (OutputValidator.normalize "see [IMAGE:a.png] ok" [⟨"", [("image_path", "a.png")]⟩])
        [⟨"", [("image_path", "a.png")]⟩] =
      OutputValidator.normalize "see [IMAGE:a.png] ok" [⟨"", [("image_path", "a.png")]⟩] :=
  claim_C9_normalize_idempotent_on_canonical "see [IMAGE:a.png] ok"
    [⟨"", [("image_path", "a.png")]⟩] (by decide)

/-- Claim C8.  In `get_response`, the inline-citation patterns are stripped
from the answer body only and the detected Sources section is preserved:
whenever the split finds a Sources section, the result is exactly the
citation-stripped answer part joined to the original (stripped) sources
tail; and on the spec's concrete input the bracketed citation disappears
from the body while the `Sources:` section survives verbatim. -/
theorem claim_C8_citation_stripping :
    (StreamingResponse.get_response
      ⟨["The sky is blue [Source: f.pdf, page 1].\nSources:\nf.pdf (Page 1)"], [],
        none⟩).response =
      "The sky is blue.\n\nSources:\nf.pdf (Page 1)" ∧
    ∀ (full : String) (a s : List Char),
      StreamingResponse.findSources full.data = some (a, s) → s ≠ [] →
      StreamingResponse.cleanFullResponse full =
        pyStrip ((StreamingResponse.citSub a).asString) ++ "\n\n" ++ pyStrip s.asString := by
  refine ⟨by decide, ?_⟩
  intro full a s h hs
  unfold StreamingResponse.cleanFullResponse
  simp only [h]
  rw [if_neg (by
    intro hc
    apply hs
    cases s with
    | nil => rfl
    | cons x xs => exact absurd hc (by simp))]

/-- Witness for claim C8: the split-and-strip decomposition evaluated on a
concrete response with a Sources section. -/
theorem claim_C8_citation_stripping_witness :
    StreamingResponse.cleanFullResponse "x y\nSources:\nf.pdf" =
      pyStrip ((StreamingResponse.citSub "x y".data).asString) ++ "\n\n" ++
        pyStrip "\nSources:\nf.pdf".data.asString :=
  claim_C8_citation_stripping.2 "x y\nSources:\nf.pdf" "x y".data "\nSources:\nf.pdf".data
    (by decide) (by decide)

/-! ## Enricher lemmas -/

theorem pyDict_eq_self {α : Type} (l : List (String × α)) (h : (l.map Prod.fst).Nodup) :
    pyDict l = l := by
  induction l using List.reverseRecOn with
  | nil => rfl
  | append_singleton l q ih =>
    rw [List.map_append, List.nodup_append] at h
    obtain ⟨h1, _, hdisj⟩ := h
    rw [pyDict_concat, ih h1]
    unfold dictUpdate
    rw [if_neg (by
      intro hc
      rw [List.any_eq_true] at hc
      obtain ⟨r, hr, he⟩ := hc
      have hq1 : q.1 ∈ l.map Prod.fst :=
        (beq_iff_eq.mp he) ▸ List.mem_map_of_mem Prod.fst hr
      exact hdisj hq1 (by simp))]

theorem enrich_table_fst (svc : LLMService) (e : Element) :
    (ContentEnricher.enrich_table svc e).1 = e.id := by
  unfold ContentEnricher.enrich_table
  split
  · rfl
  · split <;> rfl

theorem enrich_image_fst (svc : LLMService) (e : Element) :
    (ContentEnricher.enrich_image svc e).1 = e.id := by
  unfold ContentEnricher.enrich_image
  split
  · rfl
  · split <;> rfl

theorem enrichOne_fst (svc : LLMService) (e : Element) :
    (ContentEnricher.enrichOne svc e).1 = e.id := by
  unfold ContentEnricher.enrichOne
  cases e.kind
  case table => exact enrich_table_fst svc e
  case image => exact enrich_image_fst svc e
  all_goals rfl

theorem enrichTasks_eq (svc : LLMService) (elements : List Element) :
    ContentEnricher.enrichTasks svc elements =
      (elements.filter (fun e => ContentEnricher.isEnrichable e)).map
        (ContentEnricher.enrichOne svc) := by
  induction elements with
  | nil => rfl
  | cons e es ih =>
    unfold ContentEnricher.enrichTasks at ih ⊢
    rw [List.filterMap_cons, List.filter_cons]
    cases hk : e.kind <;>
      simp only [hk, ContentEnricher.isEnrichable, ContentEnricher.enrichOne] <;>
      simp [ih, hk, ContentEnricher.isEnrichable] <;>
      simp [ContentEnricher.enrichOne, hk]

theorem callFails_isEnrichable (svc : LLMService) (e : Element)
    (h : ContentEnricher.callFails svc e = true) :
    ContentEnricher.isEnrichable e = true := by
  unfold ContentEnricher.callFails at h
  unfold ContentEnricher.isEnrichable
  cases hk : e.kind <;> rw [hk] at h <;> simp_all

theorem enrichOne_placeholder (svc : LLMService) (e : Element)
    (hC : ContentEnricher.hasContent e = true)
    (hT : ∀ prompt s, svc.generate_text prompt = some s →
      ContentEnricher.isPlaceholder s = false)
    (hI : ∀ path prompt s, svc.generate_image_caption path prompt = some s →
      ContentEnricher.isPlaceholder s = false) :
    ContentEnricher.isPlaceholder (ContentEnricher.enrichOne svc e).2.1 =
      ContentEnricher.callFails svc e := by
  unfold ContentEnricher.enrichOne ContentEnricher.callFails
  unfold ContentEnricher.hasContent at hC
  cases hk : e.kind
  case text => rw [hk] at hC; exact absurd hC (by simp)
  case title => rw [hk] at hC; exact absurd hC (by simp)
  case other => rw [hk] at hC; exact absurd hC (by simp)
  case table =>
    rw [hk] at hC
    have hne : ¬((e.metadata.text_as_html).getD "" = "") := by
      intro hc
      rw [hc] at hC
      exact absurd hC (by simp)
    unfold ContentEnricher.enrich_table
    rw [if_neg hne]
    cases hg : svc.generate_text
        (get_table_summary_prompt ((e.metadata.text_as_html).getD "")) with
    | some s =>
      have hfalse := hT _ _ hg
      simp [hfalse]
    | none =>
      have hb : ((e.metadata.text_as_html).getD "" != "") = true := by
        simpa [bne_iff_ne] using hne
      simp [hb, ContentEnricher.isPlaceholder]
  case image =>
    rw [hk] at hC
    have hne : ¬((e.metadata.image_path).getD "" = "") := by
      intro hc
      rw [hc] at hC
      exact absurd hC (by simp)
    unfold ContentEnricher.enrich_image
    rw [if_neg hne]
    cases hg : svc.generate_image_caption ((e.metadata.image_path).getD "")
        get_image_caption_prompt with
    | some s =>
      have hfalse := hI _ _ _ hg
      simp [hfalse]
    | none =>
      have hb : ((e.metadata.image_path).getD "" != "") = true := by
        simpa [bne_iff_ne] using hne
      simp [hb, ContentEnricher.isPlaceholder]

/-- Claim C6.  For an element list whose table/image elements have
pairwise-distinct ids: (1) `enrich_elements` returns one entry per
table/image element; (2) if every such element has enrichable content, the
service never returns a placeholder string as a real value, and exactly one
element's enrichment call fails, then the map holds exactly one placeholder
and N-1 real values — one failure never aborts the other enrichments; and
(3) a table with no extractable HTML (resp. an image with no path) maps to
`"N/A"` with no API call made (the final `false` component records that no
call happened). -/
theorem claim_C6_enrichment_isolation (svc : LLMService) (elements : List Element)
    (hids : ((elements.filter (fun e => ContentEnricher.isEnrichable e)).map
      (fun e => e.id)).Nodup) :
    (ContentEnricher.enrich_elements svc elements).length =
      (elements.filter (fun e => ContentEnricher.isEnrichable e)).length ∧
    ((∀ e ∈ elements, ContentEnricher.isEnrichable e = true →
        ContentEnricher.hasContent e = true) →
     (∀ prompt s, svc.generate_text prompt = some s →
        ContentEnricher.isPlaceholder s = false) →
     (∀ path prompt s, svc.generate_image_caption path prompt = some s →
        ContentEnricher.isPlaceholder s = false) →
     elements.countP (fun e => ContentEnricher.callFails svc e) = 1 →
      ((ContentEnricher.enrich_elements svc elements).map (fun p => p.2)).countP
          (fun v => ContentEnricher.isPlaceholder v) = 1 ∧
      ((ContentEnricher.enrich_elements svc elements).map (fun p => p.2)).countP
          (fun v => !ContentEnricher.isPlaceholder v) =
        (elements.filter (fun e => ContentEnricher.isEnrichable e)).length - 1) ∧
    (∀ e : Element,
      ((e.metadata.text_as_html).getD "" = "" →
        ContentEnricher.enrich_table svc e = (e.id, "N/A", false)) ∧
      ((e.metadata.image_path).getD "" = "" →
        ContentEnricher.enrich_image svc e = (e.id, "N/A", false))) := by
  have htasks := enrichTasks_eq svc elements
  have hkeys : (((ContentEnricher.enrichTasks svc elements).map
      (fun t => (t.1, t.2.1))).map Prod.fst) =
      (elements.filter (fun e => ContentEnricher.isEnrichable e)).map (fun e => e.id) := by
    rw [htasks, List.map_map, List.map_map]
    apply List.map_congr_left
    intro e _
    show ((ContentEnricher.enrichOne svc e).1, (ContentEnricher.enrichOne svc e).2.1).1 = e.id
    exact enrichOne_fst svc e
  have hdict : ContentEnricher.enrich_elements svc elements =
      (ContentEnricher.enrichTasks svc elements).map (fun t => (t.1, t.2.1)) :=
    pyDict_eq_self _ (by rw [hkeys]; exact hids)
  refine ⟨?_, ?_, ?_⟩
  · rw [hdict, htasks]
    simp
  · intro hcontent hT hI hfail
    have hvals : ((ContentEnricher.enrich_elements svc elements).map (fun p => p.2)) =
        (elements.filter (fun e => ContentEnricher.isEnrichable e)).map
          (fun e => (ContentEnricher.enrichOne svc e).2.1) := by
      rw [hdict, htasks, List.map_map, List.map_map]
      rfl
    have hcount : ((ContentEnricher.enrich_elements svc elements).map (fun p => p.2)).countP
        (fun v => ContentEnricher.isPlaceholder v) = 1 := by
      rw [hvals, List.countP_map]
      have hstep : (elements.filter (fun e => ContentEnricher.isEnrichable e)).countP
          ((fun v => ContentEnricher.isPlaceholder v) ∘
            (fun e => (ContentEnricher.enrichOne svc e).2.1)) =
          (elements.filter (fun e => ContentEnricher.isEnrichable e)).countP
            (fun e => ContentEnricher.callFails svc e) := by
        apply List.countP_congr
        intro e he
        have hmem := List.mem_filter.mp he
        have heq := enrichOne_placeholder svc e (hcontent e hmem.1 hmem.2) hT hI
        show ContentEnricher.isPlaceholder (ContentEnricher.enrichOne svc e).2.1 = true ↔
          ContentEnricher.callFails svc e = true
        rw [heq]
      rw [hstep, List.countP_filter]
      rw [← hfail]
      apply List.countP_congr
      intro e _
      show (ContentEnricher.callFails svc e && ContentEnricher.isEnrichable e) = true ↔
        ContentEnricher.callFails svc e = true
      constructor
      · intro hb
        rw [Bool.and_eq_true] at hb
        exact hb.1
      · intro hb
        rw [Bool.and_eq_true]
        exact ⟨hb, callFails_isEnrichable svc e hb⟩
    refine ⟨hcount, ?_⟩
    have hlen : ((ContentEnricher.enrich_elements svc elements).map (fun p => p.2)).length =
        (elements.filter (fun e => ContentEnricher.isEnrichable e)).length := by
      rw [hvals]
      simp
    have htotal := List.length_eq_countP_add_countP
      (fun v => ContentEnricher.isPlaceholder v)
      ((ContentEnricher.enrich_elements svc elements).map (fun p => p.2))
    have hsame : ((ContentEnricher.enrich_elements svc elements).map (fun p => p.2)).countP
        (fun a => decide ¬((fun v => ContentEnricher.isPlaceholder v) a = true)) =
        ((ContentEnricher.enrich_elements svc elements).map (fun p => p.2)).countP
          (fun v => !ContentEnricher.isPlaceholder v) := by
      apply List.countP_congr
      intro a _
      simp
    rw [hsame, hcount, hlen] at htotal
    omega
  · intro e
    constructor
    · intro hh
      unfold ContentEnricher.enrich_table
      rw [if_pos hh]
    · intro hh
      unfold ContentEnricher.enrich_image
      rw [if_pos hh]

/-- Witness for claim C6 on two concrete tables where exactly the first
table's summary call fails: one placeholder value, N-1 = 1 real value. -/
theorem claim_C6_enrichment_isolation_witness :
    ((ContentEnricher.enrich_elements oneFailService twoTables).map (fun p => p.2)).countP
        (fun v => ContentEnricher.isPlaceholder v) = 1 ∧
    ((ContentEnricher.enrich_elements oneFailService twoTables).map (fun p => p.2)).countP
        (fun v => !ContentEnricher.isPlaceholder v) =
      (twoTables.filter (fun e => ContentEnricher.isEnrichable e)).length - 1 := by
  have h := claim_C6_enrichment_isolation oneFailService twoTables (by decide)
  refine h.2.1 (by decide) ?_ ?_ (by decide)
  · intro prompt s hs
    simp only [oneFailService] at hs
    split at hs
    · exact Option.noConfusion hs
    · rw [← Option.some.inj hs]
      rfl
  · intro path prompt s hs
    simp only [oneFailService] at hs
    rw [← Option.some.inj hs]
    rfl

/-! ## Decimal rendering and chunk-id lemmas -/

theorem decDigit_toNat (d : Nat) (hd : d < 10) : (decDigit d).toNat = 48 + d := by
  interval_cases d <;> rfl

theorem natDigitsRev_spec : ∀ (fuel n : Nat), n < fuel →
    natDigitsRev fuel n ≠ [] ∧ (∀ c ∈ natDigitsRev fuel n, isDigitChar c = true) ∧
      digitsVal (natDigitsRev fuel n) = n := by
  intro fuel
  induction fuel with
  | zero => intro n h; exact absurd h (Nat.not_lt_zero n)
  | succ fuel ih =>
    intro n h
    by_cases h10 : n < 10
    · refine ⟨by simp [natDigitsRev, h10], ?_, ?_⟩
      · intro c hc
        simp only [natDigitsRev, h10, if_true, List.mem_singleton] at hc
        rw [hc]
        unfold isDigitChar
        rw [decDigit_toNat n h10]
        simp only [Bool.and_eq_true, decide_eq_true_eq]
        omega
      · simp only [natDigitsRev, h10, if_true, digitsVal]
        rw [decDigit_toNat n h10]
        omega
    · have hpos : 0 < n := by omega
      have hdivlt : n / 10 < n := Nat.div_lt_self hpos (by omega)
      have hdiv : n / 10 < fuel := by omega
      obtain ⟨hne, hdig, hval⟩ := ih (n / 10) hdiv
      have hmod : n % 10 < 10 := Nat.mod_lt n (by omega)
      refine ⟨by simp [natDigitsRev, h10], ?_, ?_⟩
      · intro c hc
        simp only [natDigitsRev, h10, if_false, List.mem_cons] at hc
        rcases hc with hc | hc
        · rw [hc]
          unfold isDigitChar
          rw [decDigit_toNat _ hmod]
          simp only [Bool.and_eq_true, decide_eq_true_eq]
          omega
        · exact hdig c hc
      · simp only [natDigitsRev, h10, if_false, digitsVal, hval]
        rw [decDigit_toNat _ hmod]
        omega

theorem natStr_rev (n : Nat) : (natStr n).data.reverse = natDigitsRev (n + 1) n := by
  show ((natDigitsRev (n + 1) n).reverse).reverse = natDigitsRev (n + 1) n
  exact List.reverse_reverse _

theorem trailingNum_append_natStr (pre : String) (n : Nat) (c : Char) (rest : List Char)
    (hrev : pre.data.reverse = c :: rest) (hc : isDigitChar c = false) :
    trailingNum (pre ++ natStr n) = n := by
  unfold trailingNum
  have hdata : (pre ++ natStr n).data = pre.data ++ (natStr n).data := rfl
  rw [hdata, List.reverse_append, hrev]
  obtain ⟨_, hdig, hval⟩ := natDigitsRev_spec (n + 1) n (Nat.lt_succ_self n)
  have hall : ∀ a ∈ (natStr n).data.reverse, isDigitChar a = true := by
    intro a ha
    rw [natStr_rev] at ha
    exact hdig a ha
  rw [takeWhile_all_append isDigitChar ((natStr n).data.reverse) c rest hall hc]
  rw [natStr_rev]
  exact hval

theorem rev_append_uc (X : String) :
    (X ++ "_c").data.reverse = 'c' :: '_' :: X.data.reverse := by
  show (X.data ++ ['_', 'c']).reverse = 'c' :: '_' :: X.data.reverse
  rw [List.reverse_append]
  rfl

theorem mkChunkId_trailing (docId : String) (page : Option Nat) (i : Nat) :
    trailingNum (DocumentChunker.mkChunkId docId page i) = i := by
  cases page with
  | none =>
    show trailingNum ((docId ++ "_c") ++ natStr i) = i
    exact trailingNum_append_natStr (docId ++ "_c") i 'c' ('_' :: docId.data.reverse)
      (rev_append_uc docId) rfl
  | some p =>
    show trailingNum (((docId ++ "_p" ++ natStr p) ++ "_c") ++ natStr i) = i
    exact trailingNum_append_natStr ((docId ++ "_p" ++ natStr p) ++ "_c") i 'c'
      ('_' :: (docId ++ "_p" ++ natStr p).data.reverse)
      (rev_append_uc (docId ++ "_p" ++ natStr p)) rfl

/-! ## Chunker invariants -/

theorem acc_append_inv (acc : List Chunk × Nat) (c : Chunk)
    (hinv : DocumentChunker.AccInv acc) (hc : trailingNum c.chunk_id = acc.2) :
    DocumentChunker.AccInv (acc.1 ++ [c], acc.2 + 1) := by
  obtain ⟨hnd, hlt⟩ := hinv
  constructor
  · show ((acc.1 ++ [c]).map (fun c => trailingNum c.chunk_id)).Nodup
    rw [List.map_append, List.nodup_append]
    refine ⟨hnd, by simp, ?_⟩
    intro x hx hx2
    simp only [List.map_cons, List.map_nil, List.mem_singleton] at hx2
    obtain ⟨y, hy, hyx⟩ := List.mem_map.mp hx
    have hylt := hlt y hy
    have hxe : x = acc.2 := by rw [hx2, hc]
    omega
  · intro d hd
    rcases List.mem_append.mp hd with hd | hd
    · exact Nat.lt_trans (hlt d hd) (Nat.lt_succ_self _)
    · rw [List.mem_singleton] at hd
      rw [hd, hc]
      exact Nat.lt_succ_self _

theorem foldl_acc_inv {β : Type} (f : List Chunk × Nat → β → List Chunk × Nat)
    (hf : ∀ acc b, DocumentChunker.AccInv acc → DocumentChunker.AccInv (f acc b)) :
    ∀ (l : List β) (acc : List Chunk × Nat),
      DocumentChunker.AccInv acc → DocumentChunker.AccInv (l.foldl f acc) := by
  intro l
  induction l with
  | nil => intro acc h; exact h
  | cons b bs ih => intro acc h; exact ih (f acc b) (hf acc b h)

theorem flushBuffer_inv (dk : DocumentChunker) (st : DocumentChunker.ChunkState)
    (element : Element) (h : DocumentChunker.ChunkInv st) :
    DocumentChunker.ChunkInv (DocumentChunker.flushBuffer dk st element) := by
  unfold DocumentChunker.flushBuffer
  by_cases hb : st.text_buffer.isEmpty = true
  · rw [if_pos hb]
    exact h
  · rw [if_neg hb]
    show DocumentChunker.AccInv _
    apply foldl_acc_inv
    · intro acc g
      apply foldl_acc_inv
      intro acc2 text_chunk hacc2
      apply acc_append_inv acc2 _ hacc2
      show trailingNum
        (DocumentChunker.mkChunkId dk.doc_id element.metadata.page_number acc2.2) = acc2.2
      exact mkChunkId_trailing _ _ _
    · exact h

theorem updateSection_inv (st : DocumentChunker.ChunkState) (e : Element)
    (h : DocumentChunker.ChunkInv st) :
    DocumentChunker.ChunkInv (DocumentChunker.updateSection st e) := by
  unfold DocumentChunker.updateSection
  split
  · exact h
  · exact h

theorem bufferText_inv (st : DocumentChunker.ChunkState) (e : Element)
    (h : DocumentChunker.ChunkInv st) :
    DocumentChunker.ChunkInv (DocumentChunker.bufferText st e) := by
  unfold DocumentChunker.bufferText
  split
  · exact h
  · exact h

theorem maybeFlush_inv (dk : DocumentChunker) (st : DocumentChunker.ChunkState)
    (e : Element) (b : Bool) (h : DocumentChunker.ChunkInv st) :
    DocumentChunker.ChunkInv (DocumentChunker.maybeFlush dk st e b) := by
  unfold DocumentChunker.maybeFlush
  split
  · exact flushBuffer_inv dk st e h
  · exact h

theorem emitMultimodal_inv (dk : DocumentChunker) (en : List (String × String))
    (st : DocumentChunker.ChunkState) (e : Element) (h : DocumentChunker.ChunkInv st) :
    DocumentChunker.ChunkInv (DocumentChunker.emitMultimodal dk en st e) := by
  unfold DocumentChunker.emitMultimodal
  cases e.kind
  case image =>
    apply acc_append_inv (st.chunks, st.chunk_index) _ h
    show trailingNum
      (DocumentChunker.mkChunkId dk.doc_id e.metadata.page_number st.chunk_index) =
      st.chunk_index
    exact mkChunkId_trailing _ _ _
  case table =>
    apply acc_append_inv (st.chunks, st.chunk_index) _ h
    show trailingNum
      (DocumentChunker.mkChunkId dk.doc_id e.metadata.page_number st.chunk_index) =
      st.chunk_index
    exact mkChunkId_trailing _ _ _
  all_goals exact h

theorem processElement_inv (dk : DocumentChunker) (en : List (String × String))
    (st : DocumentChunker.ChunkState) (e : Element) (b : Bool)
    (h : DocumentChunker.ChunkInv st) :
    DocumentChunker.ChunkInv (DocumentChunker.processElement dk en st e b) :=
  emitMultimodal_inv dk en _ e
    (maybeFlush_inv dk _ e b (bufferText_inv _ e (updateSection_inv st e h)))

theorem runElements_inv (dk : DocumentChunker) (en : List (String × String)) :
    ∀ (l : List Element) (st : DocumentChunker.ChunkState),
      DocumentChunker.ChunkInv st →
      DocumentChunker.ChunkInv (DocumentChunker.runElements dk en st l) := by
  intro l
  induction l with
  | nil => intro st h; exact h
  | cons e es ih =>
    intro st h
    cases es with
    | nil => exact processElement_inv dk en st e true h
    | cons e2 rest =>
      exact ih (DocumentChunker.processElement dk en st e false)
        (processElement_inv dk en st e false h)

/-- Claim C7: for any document chunker, element list and enrichment map,
the chunk ids produced by `create_chunks` are pairwise distinct.  The proof
recovers each chunk's positional index from the trailing digit run of its
id (the index is rendered last, after a non-digit `c`), and the loop
assigns a strictly larger index to every later chunk. -/
theorem claim_C7_chunk_ids_distinct (dk : DocumentChunker) (elements : List Element)
    (enriched_data : List (String × String)) :
    ((DocumentChunker.create_chunks dk elements enriched_data).map
      (fun c => c.chunk_id)).Nodup := by
  have hinv := runElements_inv dk enriched_data elements DocumentChunker.initState
    ⟨by simp [DocumentChunker.initState], by
      intro c hc
      simp [DocumentChunker.initState] at hc⟩
  obtain ⟨hnd, _⟩ := hinv
  have hmm : (((DocumentChunker.create_chunks dk elements enriched_data).map
      (fun c => c.chunk_id)).map trailingNum).Nodup := by
    rw [List.map_map]
    exact hnd
  exact hmm.of_map trailingNum

/-! ## Section-heading invariants -/

theorem flushBuffer_section (dk : DocumentChunker) (st : DocumentChunker.ChunkState)
    (element : Element) :
    (DocumentChunker.flushBuffer dk st element).current_section = st.current_section := by
  unfold DocumentChunker.flushBuffer
  split
  · rfl
  · rfl

theorem foldl_chunks_ext {β : Type} (f : List Chunk × Nat → β → List Chunk × Nat)
    (P : Chunk → Prop)
    (hf : ∀ acc b, ∃ t, (f acc b).1 = acc.1 ++ t ∧ ∀ c ∈ t, P c) :
    ∀ (l : List β) (acc : List Chunk × Nat),
      ∃ t, (l.foldl f acc).1 = acc.1 ++ t ∧ ∀ c ∈ t, P c := by
  intro l
  induction l with
  | nil =>
    intro acc
    exact ⟨[], by simp, by intro c hc; cases hc⟩
  | cons b bs ih =>
    intro acc
    obtain ⟨t1, h1, hp1⟩ := hf acc b
    obtain ⟨t2, h2, hp2⟩ := ih (f acc b)
    refine ⟨t1 ++ t2, ?_, ?_⟩
    · rw [List.foldl_cons, h2, h1, List.append_assoc]
    · intro c hc
      rcases List.mem_append.mp hc with hc | hc
      exacts [hp1 c hc, hp2 c hc]

theorem flushBuffer_chunks_ext (dk : DocumentChunker) (st : DocumentChunker.ChunkState)
    (element : Element) :
    ∃ t, (DocumentChunker.flushBuffer dk st element).chunks = st.chunks ++ t ∧
      ∀ c ∈ t, c.structural_metadata.section_heading = st.current_section := by
  unfold DocumentChunker.flushBuffer
  by_cases hb : st.text_buffer.isEmpty = true
  · rw [if_pos hb]
    exact ⟨[], by simp, by intro c hc; cases hc⟩
  · rw [if_neg hb]
    apply foldl_chunks_ext _ (fun c => c.structural_metadata.section_heading = st.current_section)
    intro acc g
    apply foldl_chunks_ext
    intro acc2 text_chunk
    refine ⟨_, rfl, ?_⟩
    intro c hc
    rw [List.mem_singleton] at hc
    rw [hc]
    rfl

theorem updateSection_noTitle (st : DocumentChunker.ChunkState) (e : Element)
    (he : e.kind ≠ .title) : DocumentChunker.updateSection st e = st := by
  unfold DocumentChunker.updateSection
  rw [if_neg he]

theorem bufferText_sec (st : DocumentChunker.ChunkState) (e : Element)
    (h : DocumentChunker.SecInv st) : DocumentChunker.SecInv (DocumentChunker.bufferText st e) := by
  unfold DocumentChunker.bufferText
  split
  · exact h
  · exact h

theorem flushBuffer_sec (dk : DocumentChunker) (st : DocumentChunker.ChunkState)
    (e : Element) (h : DocumentChunker.SecInv st) :
    DocumentChunker.SecInv (DocumentChunker.flushBuffer dk st e) := by
  obtain ⟨t, hext, hsec⟩ := flushBuffer_chunks_ext dk st e
  constructor
  · rw [flushBuffer_section]
    exact h.1
  · intro c hc
    rw [hext] at hc
    rcases List.mem_append.mp hc with hc | hc
    · exact h.2 c hc
    · rw [hsec c hc, h.1]

theorem maybeFlush_sec (dk : DocumentChunker) (st : DocumentChunker.ChunkState)
    (e : Element) (b : Bool) (h : DocumentChunker.SecInv st) :
    DocumentChunker.SecInv (DocumentChunker.maybeFlush dk st e b) := by
  unfold DocumentChunker.maybeFlush
  split
  · exact flushBuffer_sec dk st e h
  · exact h

theorem emitMultimodal_sec (dk : DocumentChunker) (en : List (String × String))
    (st : DocumentChunker.ChunkState) (e : Element) (h : DocumentChunker.SecInv st) :
    DocumentChunker.SecInv (DocumentChunker.emitMultimodal dk en st e) := by
  unfold DocumentChunker.emitMultimodal
  cases e.kind
  case image =>
    refine ⟨h.1, ?_⟩
    intro c hc
    rcases List.mem_append.mp hc with hc | hc
    · exact h.2 c hc
    · rw [List.mem_singleton] at hc
      rw [hc]
      exact h.1
  case table =>
    refine ⟨h.1, ?_⟩
    intro c hc
    rcases List.mem_append.mp hc with hc | hc
    · exact h.2 c hc
    · rw [List.mem_singleton] at hc
      rw [hc]
      exact h.1
  all_goals exact h

theorem processElement_sec (dk : DocumentChunker) (en : List (String × String))
    (st : DocumentChunker.ChunkState) (e : Element) (b : Bool) (he : e.kind ≠ .title)
    (h : DocumentChunker.SecInv st) :
    DocumentChunker.SecInv (DocumentChunker.processElement dk en st e b) := by
  unfold DocumentChunker.processElement
  rw [updateSection_noTitle st e he]
  exact emitMultimodal_sec dk en _ e (maybeFlush_sec dk _ e b (bufferText_sec st e h))

theorem runLeading_sec (dk : DocumentChunker) (en : List (String × String)) :
    ∀ (l : List Element) (st : DocumentChunker.ChunkState), (∀ e ∈ l, e.kind ≠ .title) →
      DocumentChunker.SecInv st →
      DocumentChunker.SecInv (DocumentChunker.runLeading dk en st l) := by
  intro l
  induction l with
  | nil => intro st _ h; exact h
  | cons e es ih =>
    intro st hnt h
    exact ih (DocumentChunker.processElement dk en st e false)
      (fun x hx => hnt x (List.mem_cons_of_mem e hx))
      (processElement_sec dk en st e false (hnt e (List.mem_cons_self e es)) h)

theorem runElements_sec (dk : DocumentChunker) (en : List (String × String)) :
    ∀ (l : List Element) (st : DocumentChunker.ChunkState), (∀ e ∈ l, e.kind ≠ .title) →
      DocumentChunker.SecInv st →
      DocumentChunker.SecInv (DocumentChunker.runElements dk en st l) := by
  intro l
  induction l with
  | nil => intro st _ h; exact h
  | cons e es ih =>
    intro st hnt h
    cases es with
    | nil => exact processElement_sec dk en st e true (hnt e (List.mem_cons_self e [])) h
    | cons e2 rest =>
      exact ih (DocumentChunker.processElement dk en st e false)
        (fun x hx => hnt x (List.mem_cons_of_mem e hx))
        (processElement_sec dk en st e false (hnt e (List.mem_cons_self e (e2 :: rest))) h)

theorem updateSection_chunks (st : DocumentChunker.ChunkState) (e : Element) :
    (DocumentChunker.updateSection st e).chunks = st.chunks := by
  unfold DocumentChunker.updateSection
  split
  · rfl
  · rfl

theorem bufferText_chunks (st : DocumentChunker.ChunkState) (e : Element) :
    (DocumentChunker.bufferText st e).chunks = st.chunks := by
  unfold DocumentChunker.bufferText
  split
  · rfl
  · rfl

theorem maybeFlush_ext (dk : DocumentChunker) (st : DocumentChunker.ChunkState)
    (e : Element) (b : Bool) :
    ∃ t, (DocumentChunker.maybeFlush dk st e b).chunks = st.chunks ++ t := by
  unfold DocumentChunker.maybeFlush
  split
  · obtain ⟨t, ht, _⟩ := flushBuffer_chunks_ext dk st e
    exact ⟨t, ht⟩
  · exact ⟨[], by simp⟩

theorem emitMultimodal_ext (dk : DocumentChunker) (en : List (String × String))
    (st : DocumentChunker.ChunkState) (e : Element) :
    ∃ t, (DocumentChunker.emitMultimodal dk en st e).chunks = st.chunks ++ t := by
  unfold DocumentChunker.emitMultimodal
  cases e.kind
  case image => exact ⟨_, rfl⟩
  case table => exact ⟨_, rfl⟩
  all_goals exact ⟨[], by simp⟩

theorem processElement_ext (dk : DocumentChunker) (en : List (String × String))
    (st : DocumentChunker.ChunkState) (e : Element) (b : Bool) :
    ∃ t, (DocumentChunker.processElement dk en st e b).chunks = st.chunks ++ t := by
  unfold DocumentChunker.processElement
  obtain ⟨t1, h1⟩ := maybeFlush_ext dk (DocumentChunker.bufferText
    (DocumentChunker.updateSection st e) e) e b
  obtain ⟨t2, h2⟩ := emitMultimodal_ext dk en (DocumentChunker.maybeFlush dk
    (DocumentChunker.bufferText (DocumentChunker.updateSection st e) e) e b) e
  rw [bufferText_chunks, updateSection_chunks] at h1
  refine ⟨t1 ++ t2, ?_⟩
  rw [h2, h1, List.append_assoc]

theorem runElements_ext (dk : DocumentChunker) (en : List (String × String)) :
    ∀ (l : List Element) (st : DocumentChunker.ChunkState),
      ∃ t, (DocumentChunker.runElements dk en st l).chunks = st.chunks ++ t := by
  intro l
  induction l with
  | nil =>
    intro st
    refine ⟨[], ?_⟩
    show st.chunks = st.chunks ++ []
    simp
  | cons e es ih =>
    intro st
    cases es with
    | nil => exact processElement_ext dk en st e true
    | cons e2 rest =>
      obtain ⟨t1, h1⟩ := processElement_ext dk en st e false
      obtain ⟨t2, h2⟩ := ih (DocumentChunker.processElement dk en st e false)
      refine ⟨t1 ++ t2, ?_⟩
      have hstep : DocumentChunker.runElements dk en st (e :: e2 :: rest) =
          DocumentChunker.runElements dk en
            (DocumentChunker.processElement dk en st e false) (e2 :: rest) := rfl
      rw [hstep, h2, h1, List.append_assoc]

theorem runElements_append (dk : DocumentChunker) (en : List (String × String)) :
    ∀ (l1 l2 : List Element) (st : DocumentChunker.ChunkState), l2 ≠ [] →
      DocumentChunker.runElements dk en st (l1 ++ l2) =
        DocumentChunker.runElements dk en (DocumentChunker.runLeading dk en st l1) l2 := by
  intro l1
  induction l1 with
  | nil => intro l2 st _; rfl
  | cons e l1x ih =>
    intro l2 st h
    have hne : l1x ++ l2 ≠ [] := by
      intro hc
      exact h (List.append_eq_nil.mp hc).2
    have hstep : DocumentChunker.runElements dk en st ((e :: l1x) ++ l2) =
        DocumentChunker.runElements dk en
          (DocumentChunker.processElement dk en st e false) (l1x ++ l2) := by
      show DocumentChunker.runElements dk en st (e :: (l1x ++ l2)) = _
      cases hl : l1x ++ l2 with
      | nil => exact absurd hl hne
      | cons x xs => rfl
    rw [hstep, ih l2 _ h]
    rfl

/-- Claim C10, counterexample.  The claim says every chunk produced from
elements that precede the first Title carries `"Introduction"`.  But text
buffered before the first Title is not flushed at the Title (a Title is a
`Text` instance): it is flushed later — here at document end — under the
by-then-updated section heading.  For `[Text "hello world" (page 1),
Title "Next Section" (page 2)]`, the chunk whose entire content is the
pre-Title text `"hello world"` carries the heading `"Next Section"`. -/
theorem claim_C10_counterexample :
    ((DocumentChunker.create_chunks dk0 [sampleTextElement, titleElem] []).map
      (fun c => (c.raw_content, c.structural_metadata.section_heading))) =
      [("hello world", "Next Section"), ("Next Section", "Next Section")] ∧
    ("Next Section" : String) ≠ "Introduction" := by
  decide

/-- Claim C10, amended.  The chunker's running section heading is
initialized to the literal `"Introduction"` (not empty or absent), and
every chunk *emitted* before the first Title element is processed — image
and table chunks, and text flushed at non-`Text` elements — carries the
heading `"Introduction"`; those chunks form a leading run of
`create_chunks`' output.  However, text still sitting in the buffer when
the first Title arrives is flushed only later, under the then-current
heading, so a chunk built from pre-Title text alone may carry a later
Title's heading (see the counterexample). -/
theorem claim_C10_sections_before_first_title (dk : DocumentChunker)
    (enriched_data : List (String × String)) :
    DocumentChunker.initState.current_section = "Introduction" ∧
    (∀ elements : List Element, (∀ e ∈ elements, e.kind ≠ .title) →
      ∀ c ∈ DocumentChunker.create_chunks dk elements enriched_data,
        c.structural_metadata.section_heading = "Introduction") ∧
    (∀ l1 l2 : List Element, (∀ e ∈ l1, e.kind ≠ .title) → l2 ≠ [] →
      (DocumentChunker.runLeading dk enriched_data
          DocumentChunker.initState l1).current_section = "Introduction" ∧
      (∀ c ∈ (DocumentChunker.runLeading dk enriched_data
          DocumentChunker.initState l1).chunks,
        c.structural_metadata.section_heading = "Introduction") ∧
      ∃ t, DocumentChunker.create_chunks dk (l1 ++ l2) enriched_data =
        (DocumentChunker.runLeading dk enriched_data
          DocumentChunker.initState l1).chunks ++ t) := by
  have hinit : DocumentChunker.SecInv DocumentChunker.initState := by
    constructor
    · rfl
    · intro c hc
      cases hc
  refine ⟨rfl, ?_, ?_⟩
  · intro elements hnt c hc
    exact (runElements_sec dk enriched_data elements DocumentChunker.initState hnt hinit).2 c hc
  · intro l1 l2 hnt hne
    have hsec := runLeading_sec dk enriched_data l1 DocumentChunker.initState hnt hinit
    refine ⟨hsec.1, hsec.2, ?_⟩
    unfold DocumentChunker.create_chunks
    rw [runElements_append dk enriched_data l1 l2 DocumentChunker.initState hne]
    exact runElements_ext dk enriched_data l2 _

/-- Witness for the amended claim C10: a concrete Title-free leading
segment (a text element, an image — which emits its chunk without
flushing — and a non-`Text` element, which does flush the buffered text)
emits only chunks headed `"Introduction"`, and the running heading is
still `"Introduction"` afterwards. -/
theorem claim_C10_sections_before_first_title_witness :
    ((DocumentChunker.runLeading dk0 [] DocumentChunker.initState
        [sampleTextElement, imageElem, otherElem]).chunks.all
      (fun c => c.structural_metadata.section_heading == "Introduction")) = true ∧
    (DocumentChunker.runLeading dk0 [] DocumentChunker.initState
        [sampleTextElement, imageElem, otherElem]).current_section = "Introduction" := by
  have h := (claim_C10_sections_before_first_title dk0 []).2.2
    [sampleTextElement, imageElem, otherElem] [titleElem] (by decide) (by decide)
  refine ⟨?_, h.1⟩
  rw [List.all_eq_true]
  intro c hc
  rw [beq_iff_eq]
  exact h.2.1 c hc

/-- Claim C1.  The spec claims that after a successful ingestion run of a
document path `p`, `is_document_processed(p)` returns true, so a second
ingestion of `p` is skipped as a duplicate.  The code violates this for
every path containing a directory component: `add_chunks` stores the
basename of the path under the `file_name` payload field, while
`is_document_processed` filters the `file_name` field against the full
path.  Concretely, after a successful run for `"/data/Dummy.pdf"` (which
completes: the result store is nonempty), `is_document_processed` still
returns `false` for that very path, and a second run takes the full
processing path again, growing the store instead of skipping. -/
theorem claim_C1_duplicate_check_never_fires :
    (orchestratorRun [] "/data/Dummy.pdf" [sampleTextElement] idSplitter okService).2 ≠ [] ∧
    VectorStoreManager.is_document_processed
      (orchestratorRun [] "/data/Dummy.pdf" [sampleTextElement] idSplitter okService).2
      "/data/Dummy.pdf" = false ∧
    ((orchestratorRun
        (orchestratorRun [] "/data/Dummy.pdf" [sampleTextElement] idSplitter okService).2
        "/data/Dummy.pdf" [sampleTextElement] idSplitter okService).2).length =
      2 * ((orchestratorRun [] "/data/Dummy.pdf" [sampleTextElement] idSplitter okService).2).length := by
  decide

/-- Claim C2.  The spec claims `run` returns the "processed" (true) signal
after `LOADING → DONE`, and that the empty-extraction failure signal is
distinct from the duplicate signal.  In the code, the success path falls
off the end of `run` and returns Python `None` (modelled `none`) — despite
the docstring's promise of `True` — and both the duplicate check and the
empty-extraction check `return False`, so the two signals coincide.  The
three branches are evaluated here on concrete inputs. -/
theorem claim_C2_run_signals :
    (orchestratorRun [] "doc.pdf" [sampleTextElement] idSplitter okService).1 = none ∧
    (orchestratorRun
        (orchestratorRun [] "doc.pdf" [sampleTextElement] idSplitter okService).2
        "doc.pdf" [sampleTextElement] idSplitter okService).1 = some false ∧
    (orchestratorRun [] "doc.pdf" [] idSplitter okService).1 = some false ∧
    (orchestratorRun [] "doc.pdf" [sampleTextElement] idSplitter okService).1 ≠ some true := by
  decide

/-- Claim C5: calling `get_response` a second time returns a byte-identical
answer (and source list), does not reconsume the token stream, does not
re-run the citation-stripping pass, and leaves the object state unchanged:
the first call memoizes the post-processed answer in `_final_response`, and
the second call returns it directly. -/
theorem claim_C5_get_response_memoized (r : StreamingResponse.StreamingRAGResponse) :
    (StreamingResponse.get_response (StreamingResponse.get_response r).state).response =
      (StreamingResponse.get_response r).response ∧
    (StreamingResponse.get_response (StreamingResponse.get_response r).state).source_nodes =
      (StreamingResponse.get_response r).source_nodes ∧
    (StreamingResponse.get_response (StreamingResponse.get_response r).state).state =
      (StreamingResponse.get_response r).state ∧
    (StreamingResponse.get_response (StreamingResponse.get_response r).state).consumedStream = false ∧
    (StreamingResponse.get_response (StreamingResponse.get_response r).state).ranCleaning = false := by
  cases h : r.final_response with
  | some s => simp [StreamingResponse.get_response, h]
  | none => simp [StreamingResponse.get_response, h]

end MMRag
